import Mathlib

/-!
Verification of the binding phase of the `llf` compiler front-end
(`src/binding.rs`, with the diagnostic infrastructure of
`src/error/trace.rs` and the parse-level AST of `src/parsing.rs`).

The Rust code is shallowly embedded:
* `AyNode` (the located-node wrapper) and `Span` are re-declared here;
  their definitions are not part of the provided sources (the binder
  imports them from the parsing module), so their shape follows the
  specification's data model ("Located Node", "Span").
* `Rc` models `std::rc::Rc`: a shared, immutable, reference-counted
  pointer.  Pointer identity is modelled by an allocation identifier
  `id`; every `Rc::new` in the source corresponds to allocating a fresh
  `id`, and every `.clone()` corresponds to copying the same `id`.
* `ScopeMap` models the external crate `quickscope::ScopeMap` used by
  the binder.  Its source is not part of this repository; it is
  modelled from the spec: a stack of layers, innermost first, where
  `define` writes into the innermost layer, and both lookup and
  iteration proceed innermost-to-outermost.
* `match_function` and the conversion functions are translated from
  `src/binding.rs` directly.  `convert_expr` in the source ends in an
  unconditional `todo!()` (a panic); the faithful translation
  `convert_expr` models a panic as `none`.  A second family
  (`convert_exprI`, `convert_statementI`) completes the `todo!()`
  branches as the spec describes (error results carrying a `Trace`);
  those branches are marked `Modelled from the spec:`.
-/

/-- Modelled from the spec: `Span` ("a source range (line/column start
and end, plus the literal source line text needed for diagnostic
rendering)"); the concrete type lives in `src/error/span.rs`, which is
missing from the provided sources.  Spans are copyable metadata, never
used for identity. -/
structure Span where
  startLine : Nat
  startCol : Nat
  endLine : Nat
  endCol : Nat
  line : String
deriving Repr, DecidableEq

/-- Modelled from the spec: `AyNode`, the located-node wrapper pairing
a span with a payload ("Located Node<T>: { span, inner }"); the
concrete type is imported by `src/binding.rs` from the parsing module
but is missing from the provided `src/parsing.rs`. -/
structure AyNode (α : Type) where
  span : Span
  inner : α
deriving Repr, DecidableEq

/-- Rc: models `std::rc::Rc<T>`.  `id` is the allocation identity:
`Rc::new` yields a fresh `id`, `.clone()` copies the same `id`, so two
`Rc` values are pointer-identical exactly when their `id`s agree. -/
structure Rc (α : Type) where
  id : Nat
  val : α
deriving Repr, DecidableEq

/-- Tense, from `src/binding.rs`. -/
inductive Tense where
  | Present
  | Imminent
  | Future
deriving Repr, DecidableEq

/-- Modelled from the spec: `ComparisonOperator` is imported by
`src/binding.rs` from the parsing module but missing from the provided
`src/parsing.rs`; the spec only requires that it is carried through
unchanged, so its constructors are inert placeholders. -/
inductive ComparisonOperator where
  | Equal
  | NotEqual
  | Less
  | Greater
deriving Repr, DecidableEq

/-- Stage, from `src/error/trace.rs`. -/
inductive Stage where
  | Unknown
  | Parsing
  | AstBuilding
  | Binding
  | Typing
  | Compiling
deriving Repr, DecidableEq

/-- Modelled from the spec: `Error`, the `TraceError` implementor; its
file (`src/error/error.rs`) is missing from the provided sources, so
it follows the spec and the `TraceError` trait of `src/error/trace.rs`
(`from_span(span, message)`): a span plus a message. -/
structure Error where
  span : Span
  message : String
deriving Repr, DecidableEq

/-- Trace, from `src/error/trace.rs`: an ordered stack of
(stage, error) frames, deepest first. -/
structure Trace where
  stack : List (Stage × Error)
deriving Repr, DecidableEq

/-- `Trace::new(stage, err)` from `src/error/trace.rs`. -/
def Trace.new (stage : Stage) (err : Error) : Trace :=
  ⟨[(stage, err)]⟩

/-- `Trace::push(stage, err)` from `src/error/trace.rs`: `Vec::push`
appends at the end, so later (outer) frames follow earlier (deeper)
ones. -/
def Trace.push (t : Trace) (stage : Stage) (err : Error) : Trace :=
  ⟨t.stack ++ [(stage, err)]⟩

/-- Parse-level expressions (`parsing::Expr`), as consumed by
`src/binding.rs` (child nodes wrapped in `AyNode`, per the spec's data
model). -/
inductive PExpr where
  | FunCall (name : String) (args : List (AyNode PExpr))
  | Number (n : Int)
  | Str (s : String)
  | Ident (name : String)
  | Negated (e : AyNode PExpr)

/-- Parse-level statements (`parsing::Statement`), as consumed by
`src/binding.rs`. -/
inductive PStatement where
  | FunDec (name : String) (args : List String) (body : List (AyNode PStatement))
  | VarDec (names : List String) (values : List (AyNode PExpr))
  | Expr (e : AyNode PExpr)
  | If (cond : AyNode PExpr) (thenBr : List (AyNode PStatement))
      (otherwiseBr : List (AyNode PStatement))
  | Loop (cond : Option (AyNode PExpr)) (body : List (AyNode PStatement))

mutual
/-- Bound function declaration (`binding::FunDec`):
`{ name, args, body }`. -/
inductive FunDec : Type where
  | mk (name : String) (args : List String) (body : List (AyNode Statement)) : FunDec

/-- Bound variable declaration (`binding::VarDec`):
`{ names, values }`. -/
inductive VarDec : Type where
  | mk (names : List String) (values : List (AyNode Expr)) : VarDec

/-- Bound statements (`binding::Statement`). -/
inductive Statement : Type where
  | FunDec (dec : Rc FunDec) : Statement
  | VarDec (dec : Rc VarDec) : Statement
  | Expr (e : AyNode Expr) : Statement
  | If (cond : AyNode Expr) (thenBr : List (AyNode Statement))
      (otherwiseBr : List (AyNode Statement)) : Statement
  | Loop (cond : Option (AyNode Expr)) (body : List (AyNode Statement)) : Statement

/-- Bound expressions (`binding::Expr`). -/
inductive Expr : Type where
  | FunCall (tense : Tense) (dec : Rc FunDec) (name : String)
      (args : List (AyNode Expr)) : Expr
  | Array (items : List (AyNode Expr)) : Expr
  | Comparison (left : AyNode Expr) (right : AyNode Expr)
      (operator : ComparisonOperator) : Expr
  | Number (n : Int) : Expr
  | Str (s : String) : Expr
  | Var (dec : Rc VarDec) : Expr
  | Negated (e : AyNode Expr) : Expr
end

def FunDec.name : FunDec → String
  | .mk n _ _ => n

def FunDec.args : FunDec → List String
  | .mk _ a _ => a

def FunDec.body : FunDec → List (AyNode Statement)
  | .mk _ _ b => b

def VarDec.names : VarDec → List String
  | .mk n _ => n

def VarDec.values : VarDec → List (AyNode Expr)
  | .mk _ v => v

/-- One layer of a scope map: bindings, most recent first. -/
abbrev Layer (α : Type) : Type := List (String × α)

/-- Modelled from the spec: `ScopeMap` stands for
`quickscope::ScopeMap`, an external dependency whose source is not
part of this repository.  Per spec §4.1 it is a stack of layers,
innermost layer first; `define` writes into the innermost layer;
lookup and iteration search innermost to outermost, and within a layer
most recent binding first. -/
abbrev ScopeMap (α : Type) : Type := List (Layer α)

/-- `ScopeMap::new()`: a single empty base layer. -/
def ScopeMap.new {α : Type} : ScopeMap α := [[]]

/-- `push_layer`: opens a new innermost layer. -/
def ScopeMap.push_layer {α : Type} (m : ScopeMap α) : ScopeMap α :=
  [] :: m

/-- `pop_layer`: closes the innermost layer, discarding its
definitions. -/
def ScopeMap.pop_layer {α : Type} (m : ScopeMap α) : ScopeMap α :=
  m.tail

/-- `define(name, v)`: binds `name` in the innermost layer. -/
def ScopeMap.define {α : Type} (name : String) (v : α) (m : ScopeMap α) : ScopeMap α :=
  match m with
  | [] => [[(name, v)]]
  | l :: rest => ((name, v) :: l) :: rest

/-- All visible entries, innermost layer first. -/
def ScopeMap.entries {α : Type} (m : ScopeMap α) : List (String × α) :=
  m.flatten

/-- `get(name)`: innermost-to-outermost lookup. -/
def ScopeMap.get {α : Type} (name : String) (m : ScopeMap α) : Option α :=
  (ScopeMap.entries m).findSome? (fun p => if p.1 = name then some p.2 else none)

/-- `List Char` version of Rust's `str::split_once(c)`: splits at the
first occurrence of `c`. -/
def splitOnceAux (c : Char) : List Char → Option (List Char × List Char)
  | [] => none
  | a :: rest =>
    if a = c then some ([], rest)
    else (splitOnceAux c rest).map (fun p => (a :: p.1, p.2))

/-- Rust's `str::split_once(c)`. -/
def splitOnce (s : String) (c : Char) : Option (String × String) :=
  (splitOnceAux c s.data).map (fun p => (⟨p.1⟩, ⟨p.2⟩))

/-- Rust's `str::contains(c)` for a single character pattern. -/
def containsChar (s : String) (c : Char) : Bool :=
  s.data.contains c

/-- The per-key matching closure of `match_function`
(src/binding.rs, lines 208-224): a dotted key `left.right` matches the
three conjugated spellings, an undotted key matches only itself. -/
def match_key (name : String) (key : String) (fn : Rc FunDec) :
    Option (Tense × Rc FunDec) :=
  if containsChar key '.' then
    match splitOnce key '.' with
    | some (left, right) =>
      if left ++ right = name then some (Tense.Present, fn)
      else if left ++ "ìy" ++ right = name then some (Tense.Imminent, fn)
      else if left ++ "ay" ++ right = name then some (Tense.Future, fn)
      else none
    | none => none
  else if key = name then some (Tense.Present, fn) else none

/-- `match_function` from `src/binding.rs`: `funs.iter().find_map(..)`
over the visible entries of the function scope map.  The iteration
order (innermost layer first) is that of the modelled `ScopeMap`. -/
def match_function (name : String) (funs : ScopeMap (Rc FunDec)) :
    Option (Tense × Rc FunDec) :=
  (ScopeMap.entries funs).findSome? (fun p => match_key name p.1 p.2)

/-- Matching restricted to a single layer (used to state the scope-order
properties of `match_function`). -/
def match_layer (name : String) (layer : Layer (Rc FunDec)) :
    Option (Tense × Rc FunDec) :=
  layer.findSome? (fun p => match_key name p.1 p.2)

/-- The state threaded through the binder: the two scope stacks (the
two `&mut ScopeMap` parameters of the source) plus the allocation
counter backing the `Rc` identity model. -/
structure BindState where
  vars : ScopeMap (Rc VarDec)
  funs : ScopeMap (Rc FunDec)
  nextId : Nat

/-- The `wrap_scope!` entry action of `src/binding.rs`: push a fresh
layer on both scope maps. -/
def BindState.pushScopes (s : BindState) : BindState :=
  ⟨ScopeMap.push_layer s.vars, ScopeMap.push_layer s.funs, s.nextId⟩

/-- The `wrap_scope!` exit action of `src/binding.rs`: pop the
innermost layer of both scope maps. -/
def BindState.popScopes (s : BindState) : BindState :=
  ⟨ScopeMap.pop_layer s.vars, ScopeMap.pop_layer s.funs, s.nextId⟩

/-- The initial state of `convert` (src/binding.rs, line 79):
two fresh scope maps. -/
def initState : BindState :=
  ⟨ScopeMap.new, ScopeMap.new, 0⟩

mutual
/-- Faithful translation of `convert_expr` (src/binding.rs, lines
173-205).  The source computes the match on `inner` but terminates the
match expression with `;` and then runs `todo!("{span:?}")`, an
unconditional panic; a panic is modelled as `none`.  The discarded
match value is kept here as `_discarded` to mirror the source's
structure (its recursive calls also panic, which is indistinguishable
from falling through to the final `todo!`). -/
def convert_expr (node : AyNode PExpr) (vars : ScopeMap (Rc VarDec))
    (funs : ScopeMap (Rc FunDec)) : Option (AyNode Expr) :=
  match node with
  | ⟨span, inner⟩ =>
    let _discarded : Option (AyNode Expr) :=
      match inner with
      | PExpr.Ident name =>
        match ScopeMap.get name vars with
        | some rc => some ⟨span, Expr.Var rc⟩
        | none => none
      | PExpr.FunCall name args =>
        match match_function name funs with
        | some (tense, fun_dec) =>
          match convert_exprs args vars funs with
          | some args2 => some ⟨span, Expr.FunCall tense fun_dec name args2⟩
          | none => none
        | none => none
      | _ => none
    none

/-- Faithful translation of the `convert!(expr ...)` macro expansion:
map `convert_expr` over a list, propagating a panic. -/
def convert_exprs (es : List (AyNode PExpr)) (vars : ScopeMap (Rc VarDec))
    (funs : ScopeMap (Rc FunDec)) : Option (List (AyNode Expr)) :=
  match es with
  | [] => some []
  | e :: rest =>
    match convert_expr e vars funs with
    | none => none
    | some e2 =>
      match convert_exprs rest vars funs with
      | none => none
      | some rest2 => some (e2 :: rest2)
end

mutual
/-- Faithful translation of `convert_statement` (src/binding.rs, lines
112-171).  The source signature returns a bare `AyNode<Statement>`
(no `Result`); the only failures are panics propagated out of
`convert_expr`, modelled as `none`. -/
def convert_statement (node : AyNode PStatement) (s : BindState) :
    Option (AyNode Statement × BindState) :=
  match node with
  | ⟨span, inner⟩ =>
    match inner with
    | PStatement.VarDec names values =>
      match convert_exprs values s.vars s.funs with
      | none => none
      | some values2 =>
        let var_dec : Rc VarDec := ⟨s.nextId, VarDec.mk names values2⟩
        let vars2 := names.foldl (fun m n => ScopeMap.define n var_dec m) s.vars
        some (⟨span, Statement.VarDec var_dec⟩, ⟨vars2, s.funs, s.nextId + 1⟩)
    | PStatement.FunDec name args body =>
      match convert_statements body s.pushScopes with
      | none => none
      | some (body2, s2) =>
        let s3 := s2.popScopes
        let fun_dec : Rc FunDec := ⟨s3.nextId, FunDec.mk name args body2⟩
        some (⟨span, Statement.FunDec fun_dec⟩,
          ⟨s3.vars, ScopeMap.define name fun_dec s3.funs, s3.nextId + 1⟩)
    | PStatement.If cond thenBr otherwiseBr =>
      match convert_expr cond s.vars s.funs with
      | none => none
      | some cond2 =>
        match convert_statements thenBr s.pushScopes with
        | none => none
        | some (then2, sA) =>
          match convert_statements otherwiseBr sA.popScopes.pushScopes with
          | none => none
          | some (otherwise2, sB) =>
            some (⟨span, Statement.If cond2 then2 otherwise2⟩, sB.popScopes)
    | PStatement.Loop cond body =>
      match cond with
      | none =>
        match convert_statements body s.pushScopes with
        | none => none
        | some (body2, s2) =>
          some (⟨span, Statement.Loop none body2⟩, s2.popScopes)
      | some c =>
        match convert_expr c s.vars s.funs with
        | none => none
        | some c2 =>
          match convert_statements body s.pushScopes with
          | none => none
          | some (body2, s2) =>
            some (⟨span, Statement.Loop (some c2) body2⟩, s2.popScopes)
    | PStatement.Expr e =>
      match convert_expr e s.vars s.funs with
      | none => none
      | some e2 => some (⟨span, Statement.Expr e2⟩, s)

/-- Faithful translation of the `convert!(statement ...)` macro
expansion: map `convert_statement` over a list, threading the scope
state, propagating a panic. -/
def convert_statements (sts : List (AyNode PStatement)) (s : BindState) :
    Option (List (AyNode Statement) × BindState) :=
  match sts with
  | [] => some ([], s)
  | st :: rest =>
    match convert_statement st s with
    | none => none
    | some (st2, s2) =>
      match convert_statements rest s2 with
      | none => none
      | some (rest2, s3) => some (st2 :: rest2, s3)
end

/-- Faithful translation of `convert` (src/binding.rs, lines 78-85):
bind a whole program starting from two fresh scope maps. -/
def convert (ast : List (AyNode PStatement)) :
    Option (List (AyNode Statement) × BindState) :=
  convert_statements ast initState

/-- Modelled from the spec: the propagation policy of §7 — a failure in
a nested conversion is wrapped with an additional `Binding`-stage frame
carrying the enclosing node's span before being returned.  The binder
source contains no error path (its failure sites are `todo!()`), so
this frame construction follows the spec and `Trace::push`. -/
def wrapBinding (span : Span) (t : Trace) : Trace :=
  Trace.push t Stage.Binding ⟨span, "error while binding enclosing node"⟩

mutual
/-- Modelled from the spec: the intended `convert_expr` — the match
arms of `convert_expr` (src/binding.rs, lines 178-204, translated from
the source) with their value returned instead of discarded by the
trailing `todo!("{span:?}")`, and the `todo!()` branches completed per
spec §4.3/§7: an unresolved identifier fails with an
unresolved-variable error citing the identifier's span; an unmatched
call name fails with an unresolved-function error citing the call's
span; `Number` and `Str` are copied through unchanged and `Negated`
converts its operand and wraps. -/
def convert_exprI (node : AyNode PExpr) (vars : ScopeMap (Rc VarDec))
    (funs : ScopeMap (Rc FunDec)) : Except Trace (AyNode Expr) :=
  match node with
  | ⟨span, inner⟩ =>
    match inner with
    | PExpr.Ident name =>
      match ScopeMap.get name vars with
      | some rc => .ok ⟨span, Expr.Var rc⟩
      | none => .error (Trace.new Stage.Binding ⟨span, "unresolved variable " ++ name⟩)
    | PExpr.FunCall name args =>
      match match_function name funs with
      | some (tense, fun_dec) =>
        match convert_exprsI args vars funs with
        | .ok args2 => .ok ⟨span, Expr.FunCall tense fun_dec name args2⟩
        | .error t => .error (wrapBinding span t)
      | none => .error (Trace.new Stage.Binding ⟨span, "unresolved function " ++ name⟩)
    | PExpr.Number n => .ok ⟨span, Expr.Number n⟩
    | PExpr.Str str => .ok ⟨span, Expr.Str str⟩
    | PExpr.Negated e =>
      match convert_exprI e vars funs with
      | .ok e2 => .ok ⟨span, Expr.Negated e2⟩
      | .error t => .error (wrapBinding span t)

/-- Modelled from the spec: the intended `convert!(expr ...)` — map
`convert_exprI` over a list, failing on the first error. -/
def convert_exprsI (es : List (AyNode PExpr)) (vars : ScopeMap (Rc VarDec))
    (funs : ScopeMap (Rc FunDec)) : Except Trace (List (AyNode Expr)) :=
  match es with
  | [] => .ok []
  | e :: rest =>
    match convert_exprI e vars funs with
    | .error t => .error t
    | .ok e2 =>
      match convert_exprsI rest vars funs with
      | .error t => .error t
      | .ok rest2 => .ok (e2 :: rest2)
end

mutual
/-- Modelled from the spec: the intended `convert_statement` — the
statement conversion of src/binding.rs (lines 112-171, translated from
the source; it has no failure site of its own) lifted over the
error-carrying `convert_exprI`; a nested failure is wrapped with the
enclosing statement's span (spec §7, `wrapBinding`).  The scope
discipline (`wrap_scope!` push/pop placement), the order of operations
inside each arm, and the `Rc` creation points are those of the
source. -/
def convert_statementI (node : AyNode PStatement) (s : BindState) :
    Except Trace (AyNode Statement × BindState) :=
  match node with
  | ⟨span, inner⟩ =>
    match inner with
    | PStatement.VarDec names values =>
      match convert_exprsI values s.vars s.funs with
      | .error t => .error (wrapBinding span t)
      | .ok values2 =>
        let var_dec : Rc VarDec := ⟨s.nextId, VarDec.mk names values2⟩
        let vars2 := names.foldl (fun m n => ScopeMap.define n var_dec m) s.vars
        .ok (⟨span, Statement.VarDec var_dec⟩, ⟨vars2, s.funs, s.nextId + 1⟩)
    | PStatement.FunDec name args body =>
      match convert_statementsI body s.pushScopes with
      | .error t => .error (wrapBinding span t)
      | .ok (body2, s2) =>
        let s3 := s2.popScopes
        let fun_dec : Rc FunDec := ⟨s3.nextId, FunDec.mk name args body2⟩
        .ok (⟨span, Statement.FunDec fun_dec⟩,
          ⟨s3.vars, ScopeMap.define name fun_dec s3.funs, s3.nextId + 1⟩)
    | PStatement.If cond thenBr otherwiseBr =>
      match convert_exprI cond s.vars s.funs with
      | .error t => .error (wrapBinding span t)
      | .ok cond2 =>
        match convert_statementsI thenBr s.pushScopes with
        | .error t => .error (wrapBinding span t)
        | .ok (then2, sA) =>
          match convert_statementsI otherwiseBr sA.popScopes.pushScopes with
          | .error t => .error (wrapBinding span t)
          | .ok (otherwise2, sB) =>
            .ok (⟨span, Statement.If cond2 then2 otherwise2⟩, sB.popScopes)
    | PStatement.Loop cond body =>
      match cond with
      | none =>
        match convert_statementsI body s.pushScopes with
        | .error t => .error (wrapBinding span t)
        | .ok (body2, s2) =>
          .ok (⟨span, Statement.Loop none body2⟩, s2.popScopes)
      | some c =>
        match convert_exprI c s.vars s.funs with
        | .error t => .error (wrapBinding span t)
        | .ok c2 =>
          match convert_statementsI body s.pushScopes with
          | .error t => .error (wrapBinding span t)
          | .ok (body2, s2) =>
            .ok (⟨span, Statement.Loop (some c2) body2⟩, s2.popScopes)
    | PStatement.Expr e =>
      match convert_exprI e s.vars s.funs with
      | .error t => .error (wrapBinding span t)
      | .ok e2 => .ok (⟨span, Statement.Expr e2⟩, s)

/-- Modelled from the spec: the intended `convert!(statement ...)` —
map `convert_statementI` over a list, threading the scope state,
failing on the first error. -/
def convert_statementsI (sts : List (AyNode PStatement)) (s : BindState) :
    Except Trace (List (AyNode Statement) × BindState) :=
  match sts with
  | [] => .ok ([], s)
  | st :: rest =>
    match convert_statementI st s with
    | .error t => .error t
    | .ok (st2, s2) =>
      match convert_statementsI rest s2 with
      | .error t => .error t
      | .ok (rest2, s3) => .ok (st2 :: rest2, s3)
end

/-- Modelled from the spec: the intended `convert` — bind a whole
program from fresh scope maps. -/
def convertI (ast : List (AyNode PStatement)) :
    Except Trace (List (AyNode Statement) × BindState) :=
  convert_statementsI ast initState

/-- Is an `Except` result an error? -/
def isErr {ε α : Type} : Except ε α → Bool
  | .error _ => true
  | .ok _ => false

mutual
/-- Structural size of a parse-level expression node (used to bound the
binder's recursion depth). -/
def sizeE : AyNode PExpr → Nat
  | ⟨_, PExpr.FunCall _ args⟩ => 1 + sizeEs args
  | ⟨_, PExpr.Number _⟩ => 1
  | ⟨_, PExpr.Str _⟩ => 1
  | ⟨_, PExpr.Ident _⟩ => 1
  | ⟨_, PExpr.Negated e⟩ => 1 + sizeE e

/-- Structural size of a list of parse-level expression nodes. -/
def sizeEs : List (AyNode PExpr) → Nat
  | [] => 1
  | e :: rest => 1 + sizeE e + sizeEs rest
end

mutual
/-- Structural size of a parse-level statement node. -/
def sizeS : AyNode PStatement → Nat
  | ⟨_, PStatement.VarDec _ values⟩ => 1 + sizeEs values
  | ⟨_, PStatement.FunDec _ _ body⟩ => 1 + sizeSs body
  | ⟨_, PStatement.Expr e⟩ => 1 + sizeE e
  | ⟨_, PStatement.If cond thenBr otherwiseBr⟩ =>
      1 + sizeE cond + sizeSs thenBr + sizeSs otherwiseBr
  | ⟨_, PStatement.Loop cond body⟩ =>
      1 + (match cond with | some c => sizeE c | none => 0) + sizeSs body

/-- Structural size of a list of parse-level statement nodes. -/
def sizeSs : List (AyNode PStatement) → Nat
  | [] => 1
  | st :: rest => 1 + sizeS st + sizeSs rest
end

mutual
/-- Fuel-indexed variant of `convert_exprI`: each recursion step
consumes one unit of fuel; `none` means the fuel ran out.  Used to
state that the binder's recursion is bounded by the input tree size. -/
def convert_exprF (fuel : Nat) (node : AyNode PExpr)
    (vars : ScopeMap (Rc VarDec)) (funs : ScopeMap (Rc FunDec)) :
    Option (Except Trace (AyNode Expr)) :=
  match fuel with
  | 0 => none
  | n + 1 =>
    match node with
    | ⟨span, inner⟩ =>
      match inner with
      | PExpr.Ident name =>
        match ScopeMap.get name vars with
        | some rc => some (.ok ⟨span, Expr.Var rc⟩)
        | none => some (.error (Trace.new Stage.Binding ⟨span, "unresolved variable " ++ name⟩))
      | PExpr.FunCall name args =>
        match match_function name funs with
        | some (tense, fun_dec) =>
          match convert_exprsF n args vars funs with
          | none => none
          | some (.ok args2) => some (.ok ⟨span, Expr.FunCall tense fun_dec name args2⟩)
          | some (.error t) => some (.error (wrapBinding span t))
        | none => some (.error (Trace.new Stage.Binding ⟨span, "unresolved function " ++ name⟩))
      | PExpr.Number num => some (.ok ⟨span, Expr.Number num⟩)
      | PExpr.Str str => some (.ok ⟨span, Expr.Str str⟩)
      | PExpr.Negated e =>
        match convert_exprF n e vars funs with
        | none => none
        | some (.ok e2) => some (.ok ⟨span, Expr.Negated e2⟩)
        | some (.error t) => some (.error (wrapBinding span t))

/-- Fuel-indexed variant of `convert_exprsI`. -/
def convert_exprsF (fuel : Nat) (es : List (AyNode PExpr))
    (vars : ScopeMap (Rc VarDec)) (funs : ScopeMap (Rc FunDec)) :
    Option (Except Trace (List (AyNode Expr))) :=
  match fuel with
  | 0 => none
  | n + 1 =>
    match es with
    | [] => some (.ok [])
    | e :: rest =>
      match convert_exprF n e vars funs with
      | none => none
      | some (.error t) => some (.error t)
      | some (.ok e2) =>
        match convert_exprsF n rest vars funs with
        | none => none
        | some (.error t) => some (.error t)
        | some (.ok rest2) => some (.ok (e2 :: rest2))
end

mutual
/-- Fuel-indexed variant of `convert_statementI`. -/
def convert_statementF (fuel : Nat) (node : AyNode PStatement) (s : BindState) :
    Option (Except Trace (AyNode Statement × BindState)) :=
  match fuel with
  | 0 => none
  | n + 1 =>
    match node with
    | ⟨span, inner⟩ =>
      match inner with
      | PStatement.VarDec names values =>
        match convert_exprsF n values s.vars s.funs with
        | none => none
        | some (.error t) => some (.error (wrapBinding span t))
        | some (.ok values2) =>
          let var_dec : Rc VarDec := ⟨s.nextId, VarDec.mk names values2⟩
          let vars2 := names.foldl (fun m nm => ScopeMap.define nm var_dec m) s.vars
          some (.ok (⟨span, Statement.VarDec var_dec⟩, ⟨vars2, s.funs, s.nextId + 1⟩))
      | PStatement.FunDec name args body =>
        match convert_statementsF n body s.pushScopes with
        | none => none
        | some (.error t) => some (.error (wrapBinding span t))
        | some (.ok (body2, s2)) =>
          let s3 := s2.popScopes
          let fun_dec : Rc FunDec := ⟨s3.nextId, FunDec.mk name args body2⟩
          some (.ok (⟨span, Statement.FunDec fun_dec⟩,
            ⟨s3.vars, ScopeMap.define name fun_dec s3.funs, s3.nextId + 1⟩))
      | PStatement.If cond thenBr otherwiseBr =>
        match convert_exprF n cond s.vars s.funs with
        | none => none
        | some (.error t) => some (.error (wrapBinding span t))
        | some (.ok cond2) =>
          match convert_statementsF n thenBr s.pushScopes with
          | none => none
          | some (.error t) => some (.error (wrapBinding span t))
          | some (.ok (then2, sA)) =>
            match convert_statementsF n otherwiseBr sA.popScopes.pushScopes with
            | none => none
            | some (.error t) => some (.error (wrapBinding span t))
            | some (.ok (otherwise2, sB)) =>
              some (.ok (⟨span, Statement.If cond2 then2 otherwise2⟩, sB.popScopes))
      | PStatement.Loop cond body =>
        match cond with
        | none =>
          match convert_statementsF n body s.pushScopes with
          | none => none
          | some (.error t) => some (.error (wrapBinding span t))
          | some (.ok (body2, s2)) =>
            some (.ok (⟨span, Statement.Loop none body2⟩, s2.popScopes))
        | some c =>
          match convert_exprF n c s.vars s.funs with
          | none => none
          | some (.error t) => some (.error (wrapBinding span t))
          | some (.ok c2) =>
            match convert_statementsF n body s.pushScopes with
            | none => none
            | some (.error t) => some (.error (wrapBinding span t))
            | some (.ok (body2, s2)) =>
              some (.ok (⟨span, Statement.Loop (some c2) body2⟩, s2.popScopes))
      | PStatement.Expr e =>
        match convert_exprF n e s.vars s.funs with
        | none => none
        | some (.error t) => some (.error (wrapBinding span t))
        | some (.ok e2) => some (.ok (⟨span, Statement.Expr e2⟩, s))

/-- Fuel-indexed variant of `convert_statementsI`. -/
def convert_statementsF (fuel : Nat) (sts : List (AyNode PStatement)) (s : BindState) :
    Option (Except Trace (List (AyNode Statement) × BindState)) :=
  match fuel with
  | 0 => none
  | n + 1 =>
    match sts with
    | [] => some (.ok ([], s))
    | st :: rest =>
      match convert_statementF n st s with
      | none => none
      | some (.error t) => some (.error t)
      | some (.ok (st2, s2)) =>
        match convert_statementsF n rest s2 with
        | none => none
        | some (.error t) => some (.error t)
        | some (.ok (rest2, s3)) => some (.ok (st2 :: rest2, s3))
end

theorem sizeE_pos (e : AyNode PExpr) : 0 < sizeE e := by
  obtain ⟨sp, i⟩ := e
  cases i <;> simp [sizeE]

theorem sizeEs_pos (l : List (AyNode PExpr)) : 0 < sizeEs l := by
  cases l <;> simp [sizeEs]

theorem sizeS_pos (st : AyNode PStatement) : 0 < sizeS st := by
  obtain ⟨sp, i⟩ := st
  cases i with
  | Loop cond body => cases cond <;> simp [sizeS]
  | FunDec name args body => simp [sizeS]
  | VarDec names values => simp [sizeS]
  | Expr e => simp [sizeS]
  | If cond thenBr otherwiseBr => simp [sizeS]

theorem sizeSs_pos (l : List (AyNode PStatement)) : 0 < sizeSs l := by
  cases l <;> simp [sizeSs]

/-- Fuel adequacy for expression conversion: fuel equal to the node's
structural size suffices, and then the fuel-indexed conversion computes
exactly the fuel-free one. -/
theorem convert_exprF_adequate : ∀ n : Nat,
    (∀ e vars funs, sizeE e ≤ n →
      convert_exprF n e vars funs = some (convert_exprI e vars funs)) ∧
    (∀ l vars funs, sizeEs l ≤ n →
      convert_exprsF n l vars funs = some (convert_exprsI l vars funs)) := by
  intro n
  induction n with
  | zero =>
    constructor
    · intro e vars funs h
      exact absurd h (by have := sizeE_pos e; omega)
    · intro l vars funs h
      exact absurd h (by have := sizeEs_pos l; omega)
  | succ n ih =>
    constructor
    · intro e vars funs h
      obtain ⟨sp, i⟩ := e
      cases i with
      | FunCall name args =>
        have hs : sizeEs args ≤ n := by simp [sizeE] at h; omega
        have h2 := ih.2 args vars funs hs
        simp only [convert_exprF, convert_exprI, h2]
        split <;> (try split) <;> simp_all
      | Number num => simp [convert_exprF, convert_exprI]
      | Str str => simp [convert_exprF, convert_exprI]
      | Ident name =>
        simp only [convert_exprF, convert_exprI]
        split <;> simp
      | Negated e1 =>
        have hs : sizeE e1 ≤ n := by simp [sizeE] at h; omega
        have h2 := ih.1 e1 vars funs hs
        simp only [convert_exprF, convert_exprI, h2]
        split <;> simp_all
    · intro l vars funs h
      cases l with
      | nil => simp [convert_exprsF, convert_exprsI]
      | cons e rest =>
        have he : sizeE e ≤ n := by
          have := sizeEs_pos rest; simp [sizeEs] at h; omega
        have hr : sizeEs rest ≤ n := by
          have := sizeE_pos e; simp [sizeEs] at h; omega
        have h1 := ih.1 e vars funs he
        have h2 := ih.2 rest vars funs hr
        simp only [convert_exprsF, convert_exprsI, h1, h2]
        split <;> (try split) <;> simp_all

/-- Fuel adequacy for statement conversion: fuel equal to the node's
structural size suffices, and then the fuel-indexed conversion computes
exactly the fuel-free one. -/
theorem convert_statementF_adequate : ∀ n : Nat,
    (∀ st s, sizeS st ≤ n →
      convert_statementF n st s = some (convert_statementI st s)) ∧
    (∀ l s, sizeSs l ≤ n →
      convert_statementsF n l s = some (convert_statementsI l s)) := by
  intro n
  induction n with
  | zero =>
    constructor
    · intro st s h
      exact absurd h (by have := sizeS_pos st; omega)
    · intro l s h
      exact absurd h (by have := sizeSs_pos l; omega)
  | succ n ih =>
    constructor
    · intro st s h
      obtain ⟨sp, i⟩ := st
      cases i with
      | VarDec names values =>
        have hs : sizeEs values ≤ n := by simp [sizeS] at h; omega
        have hv := (convert_exprF_adequate n).2 values s.vars s.funs hs
        cases hvv : convert_exprsI values s.vars s.funs with
        | error t => simp [convert_statementF, convert_statementI, hv, hvv]
        | ok values2 => simp [convert_statementF, convert_statementI, hv, hvv]
      | FunDec name args body =>
        have hs : sizeSs body ≤ n := by simp [sizeS] at h; omega
        have hb := ih.2 body s.pushScopes hs
        cases hbv : convert_statementsI body s.pushScopes with
        | error t => simp [convert_statementF, convert_statementI, hb, hbv]
        | ok p =>
          obtain ⟨body2, s2⟩ := p
          simp [convert_statementF, convert_statementI, hb, hbv]
      | Expr e =>
        have hs : sizeE e ≤ n := by simp [sizeS] at h; omega
        have he := (convert_exprF_adequate n).1 e s.vars s.funs hs
        cases hev : convert_exprI e s.vars s.funs with
        | error t => simp [convert_statementF, convert_statementI, he, hev]
        | ok e2 => simp [convert_statementF, convert_statementI, he, hev]
      | If cond thenBr otherwiseBr =>
        have hsc : sizeE cond ≤ n := by
          have := sizeSs_pos thenBr; have := sizeSs_pos otherwiseBr
          simp [sizeS] at h; omega
        have hst : sizeSs thenBr ≤ n := by
          have := sizeE_pos cond; have := sizeSs_pos otherwiseBr
          simp [sizeS] at h; omega
        have hso : sizeSs otherwiseBr ≤ n := by
          have := sizeE_pos cond; have := sizeSs_pos thenBr
          simp [sizeS] at h; omega
        have hc := (convert_exprF_adequate n).1 cond s.vars s.funs hsc
        cases hcv : convert_exprI cond s.vars s.funs with
        | error t => simp [convert_statementF, convert_statementI, hc, hcv]
        | ok cond2 =>
          have hthen := ih.2 thenBr s.pushScopes hst
          cases hthenv : convert_statementsI thenBr s.pushScopes with
          | error t =>
            simp [convert_statementF, convert_statementI, hc, hcv, hthen, hthenv]
          | ok p =>
            obtain ⟨then2, sA⟩ := p
            have hother := ih.2 otherwiseBr sA.popScopes.pushScopes hso
            cases hotherv : convert_statementsI otherwiseBr sA.popScopes.pushScopes with
            | error t =>
              simp [convert_statementF, convert_statementI, hc, hcv, hthen, hthenv,
                hother, hotherv]
            | ok q =>
              obtain ⟨otherwise2, sB⟩ := q
              simp [convert_statementF, convert_statementI, hc, hcv, hthen, hthenv,
                hother, hotherv]
      | Loop cond body =>
        cases cond with
        | none =>
          have hs : sizeSs body ≤ n := by simp [sizeS] at h; omega
          have hb := ih.2 body s.pushScopes hs
          cases hbv : convert_statementsI body s.pushScopes with
          | error t => simp [convert_statementF, convert_statementI, hb, hbv]
          | ok p =>
            obtain ⟨body2, s2⟩ := p
            simp [convert_statementF, convert_statementI, hb, hbv]
        | some c =>
          have hsc : sizeE c ≤ n := by
            have := sizeSs_pos body; simp [sizeS] at h; omega
          have hsb : sizeSs body ≤ n := by
            have := sizeE_pos c; simp [sizeS] at h; omega
          have hc := (convert_exprF_adequate n).1 c s.vars s.funs hsc
          cases hcv : convert_exprI c s.vars s.funs with
          | error t => simp [convert_statementF, convert_statementI, hc, hcv]
          | ok c2 =>
            have hb := ih.2 body s.pushScopes hsb
            cases hbv : convert_statementsI body s.pushScopes with
            | error t => simp [convert_statementF, convert_statementI, hc, hcv, hb, hbv]
            | ok p =>
              obtain ⟨body2, s2⟩ := p
              simp [convert_statementF, convert_statementI, hc, hcv, hb, hbv]
    · intro l s h
      cases l with
      | nil => simp [convert_statementsF, convert_statementsI]
      | cons st rest =>
        have hst : sizeS st ≤ n := by
          have := sizeSs_pos rest; simp [sizeSs] at h; omega
        have hrest : sizeSs rest ≤ n := by
          have := sizeS_pos st; simp [sizeSs] at h; omega
        have h1 := ih.1 st s hst
        cases h1v : convert_statementI st s with
        | error t => simp [convert_statementsF, convert_statementsI, h1, h1v]
        | ok p =>
          obtain ⟨st2, s2⟩ := p
          have h2 := ih.2 rest s2 hrest
          cases h2v : convert_statementsI rest s2 with
          | error t => simp [convert_statementsF, convert_statementsI, h1, h1v, h2, h2v]
          | ok q =>
            obtain ⟨rest2, s3⟩ := q
            simp [convert_statementsF, convert_statementsI, h1, h1v, h2, h2v]

theorem splitOnceAux_eq_some {c : Char} :
    ∀ {cs a b : List Char}, splitOnceAux c cs = some (a, b) →
      cs = a ++ c :: b ∧ c ∉ a := by
  intro cs
  induction cs with
  | nil => intro a b h; simp [splitOnceAux] at h
  | cons x rest ih =>
    intro a b h
    simp only [splitOnceAux] at h
    by_cases hx : x = c
    · rw [if_pos hx] at h
      obtain ⟨ha, hb⟩ := Prod.mk.injEq .. ▸ Option.some.inj h
      subst ha; subst hb; subst hx
      simp
    · rw [if_neg hx] at h
      cases hr : splitOnceAux c rest with
      | none => rw [hr] at h; simp at h
      | some p =>
        rw [hr] at h
        obtain ⟨a1, b1⟩ := p
        simp only [Option.map_some'] at h
        obtain ⟨ha, hb⟩ := Prod.mk.injEq .. ▸ Option.some.inj h
        obtain ⟨hrest, hnm⟩ := ih hr
        subst hb
        constructor
        · rw [← ha]; simp [hrest]
        · rw [← ha]
          intro hmem
          rcases List.mem_cons.mp hmem with h1 | h2
          · exact hx h1.symm
          · exact hnm h2

theorem splitOnceAux_of_not_mem {c : Char} :
    ∀ {a : List Char}, c ∉ a → ∀ b, splitOnceAux c (a ++ c :: b) = some (a, b) := by
  intro a
  induction a with
  | nil => intro _ b; simp [splitOnceAux]
  | cons x rest ih =>
    intro h b
    have hx : x ≠ c := by intro hc; exact h (by simp [hc])
    have hr : c ∉ rest := by intro hc; exact h (by simp [hc])
    have hih := ih hr b
    simp only [List.cons_append, splitOnceAux, if_neg hx, List.append_eq, hih,
      Option.map_some']

theorem splitOnceAux_isSome {c : Char} :
    ∀ {cs : List Char}, c ∈ cs → (splitOnceAux c cs).isSome := by
  intro cs
  induction cs with
  | nil => intro h; simp at h
  | cons x rest ih =>
    intro h
    simp only [splitOnceAux]
    by_cases hx : x = c
    · simp [hx]
    · have : c ∈ rest := by
        cases List.mem_cons.mp h with
        | inl h1 => exact absurd h1.symm hx
        | inr h2 => exact h2
      rw [if_neg hx]
      have := ih this
      cases hr : splitOnceAux c rest with
      | none => rw [hr] at this; simp at this
      | some p => simp

theorem containsChar_iff_mem {s : String} {c : Char} :
    containsChar s c = true ↔ c ∈ s.data := by
  simp [containsChar, List.contains_iff_exists_mem_beq, beq_iff_eq]

theorem splitOnce_append {left right : String} (h : containsChar left '.' = false) :
    splitOnce (left ++ "." ++ right) '.' = some (left, right) := by
  have hnm : '.' ∉ left.data := by
    intro hc
    rw [(containsChar_iff_mem).mpr hc] at h
    exact Bool.noConfusion h
  have hdata : (left ++ "." ++ right).data = left.data ++ '.' :: right.data := by
    simp [String.data_append]
  rw [splitOnce, hdata, splitOnceAux_of_not_mem hnm right.data]
  simp only [Option.map_some']

/-- C1: `match_function` realizes the tense rule.  An undotted declared
key matches only a call name spelled identically to it (tense Present);
a key of the shape `left ++ "." ++ right` (with dot-free halves)
matches exactly the three spellings `left ++ right` (Present),
`left ++ "ìy" ++ right` (Imminent) and `left ++ "ay" ++ right`
(Future); for a visible key "t.aron" the call names "taron",
"tìyaron" and "tayaron" resolve to that declaration with tenses
Present, Imminent and Future respectively, and every other spelling
yields not-found. -/
theorem match_function_tense_rule :
    (∀ (name key : String) (fn : Rc FunDec), containsChar key '.' = false →
      match_key name key fn =
        if key = name then some (Tense.Present, fn) else none) ∧
    (∀ (name left right : String) (fn : Rc FunDec),
      containsChar left '.' = false → containsChar right '.' = false →
      match_key name (left ++ "." ++ right) fn =
        if left ++ right = name then some (Tense.Present, fn)
        else if left ++ "ìy" ++ right = name then some (Tense.Imminent, fn)
        else if left ++ "ay" ++ right = name then some (Tense.Future, fn)
        else none) ∧
    (∀ fn : Rc FunDec,
      match_function "taron" [[("t.aron", fn)]] = some (Tense.Present, fn)) ∧
    (∀ fn : Rc FunDec,
      match_function "tìyaron" [[("t.aron", fn)]] = some (Tense.Imminent, fn)) ∧
    (∀ fn : Rc FunDec,
      match_function "tayaron" [[("t.aron", fn)]] = some (Tense.Future, fn)) ∧
    (∀ (nm : String) (fn : Rc FunDec),
      nm ≠ "taron" → nm ≠ "tìyaron" → nm ≠ "tayaron" →
      match_function nm [[("t.aron", fn)]] = none) := by
  refine ⟨?_, ?_, ?_, ?_, ?_, ?_⟩
  · intro name key fn h
    simp [match_key, h]
  · intro name left right fn hl hr
    have hc : containsChar (left ++ "." ++ right) '.' = true :=
      containsChar_iff_mem.mpr (by simp [String.data_append])
    simp only [match_key, hc, if_true, splitOnce_append hl]
  · intro fn; rfl
  · intro fn; rfl
  · intro fn; rfl
  · intro nm fn h1 h2 h3
    have e1 : ("t" : String) ++ "aron" = "taron" := rfl
    have e2 : ("t" : String) ++ "ìy" ++ "aron" = "tìyaron" := rfl
    have e3 : ("t" : String) ++ "ay" ++ "aron" = "tayaron" := rfl
    have hs : splitOnce "t.aron" '.' = some ("t", "aron") := rfl
    have hcc : containsChar "t.aron" '.' = true := rfl
    simp only [match_function, ScopeMap.entries, List.flatten_cons, List.flatten_nil,
      List.append_nil, List.findSome?_cons, match_key, hcc, if_true, hs, e1, e2, e3]
    rw [if_neg (Ne.symm h1), if_neg (Ne.symm h2), if_neg (Ne.symm h3)]
    simp [List.findSome?]

theorem match_function_tense_rule_witness :
    containsChar "scope" '.' = false ∧
    match_key "taron" "scope" ⟨0, FunDec.mk "scope" [] []⟩ = none ∧
    ("nothing" : String) ≠ "taron" ∧
    match_function "nothing" [[("t.aron", ⟨0, FunDec.mk "taron" [] []⟩)]] = none := by
  refine ⟨rfl, ?_, by decide, ?_⟩
  · rw [match_function_tense_rule.1 "taron" "scope" ⟨0, FunDec.mk "scope" [] []⟩ rfl]
    simp
  · exact match_function_tense_rule.2.2.2.2.2 "nothing" ⟨0, FunDec.mk "taron" [] []⟩
      (by decide) (by decide) (by decide)

theorem splitOnce_data {s left right : String}
    (h : splitOnce s '.' = some (left, right)) :
    s.data = left.data ++ '.' :: right.data := by
  rw [splitOnce] at h
  cases hr : splitOnceAux '.' s.data with
  | none => rw [hr] at h; simp at h
  | some p =>
    rw [hr] at h
    simp only [Option.map_some'] at h
    obtain ⟨h1, h2⟩ := Prod.mk.injEq .. ▸ Option.some.inj h
    obtain ⟨hs, _⟩ := splitOnceAux_eq_some hr
    rw [hs, ← h1, ← h2]

/-- C10: a declared key containing the delimiter is never matched by its
own literal spelling: whenever `match_key` succeeds on a dotted key the
call name is one of the three conjugated (delimiter-free) spellings,
and in particular it is never the key itself; concretely, with
"t.aron" declared, calling "t.aron" is not resolved. -/
theorem dotted_key_literal_spelling_not_matched :
    (∀ (name key : String) (fn : Rc FunDec) (t : Tense) (f : Rc FunDec),
      match_key name key fn = some (t, f) → containsChar key '.' = true →
      ∃ left right, splitOnce key '.' = some (left, right) ∧
        (name = left ++ right ∨ name = left ++ "ìy" ++ right ∨
          name = left ++ "ay" ++ right)) ∧
    (∀ (name key : String) (fn : Rc FunDec) (t : Tense) (f : Rc FunDec),
      match_key name key fn = some (t, f) → containsChar key '.' = true →
      name ≠ key) ∧
    (∀ fn : Rc FunDec, match_function "t.aron" [[("t.aron", fn)]] = none) := by
  have main : ∀ (name key : String) (fn : Rc FunDec) (t : Tense) (f : Rc FunDec),
      match_key name key fn = some (t, f) → containsChar key '.' = true →
      ∃ left right, splitOnce key '.' = some (left, right) ∧
        (name = left ++ right ∨ name = left ++ "ìy" ++ right ∨
          name = left ++ "ay" ++ right) := by
    intro name key fn t f h hc
    simp only [match_key, hc, if_true] at h
    cases hsp : splitOnce key '.' with
    | none => rw [hsp] at h; simp at h
    | some p =>
      obtain ⟨l, r⟩ := p
      rw [hsp] at h
      dsimp only at h
      split_ifs at h with h1 h2 h3
      · exact ⟨l, r, rfl, Or.inl h1.symm⟩
      · exact ⟨l, r, rfl, Or.inr (Or.inl h2.symm)⟩
      · exact ⟨l, r, rfl, Or.inr (Or.inr h3.symm)⟩
  refine ⟨main, ?_, ?_⟩
  · intro name key fn t f h hc heq
    obtain ⟨l, r, hsp, hcases⟩ := main name key fn t f h hc
    have hdata := splitOnce_data hsp
    have hklen : key.data.length = l.data.length + 1 + r.data.length := by
      rw [hdata]; simp; omega
    have hiy : ("ìy" : String).data.length = 2 := rfl
    have hay : ("ay" : String).data.length = 2 := rfl
    rcases hcases with h1 | h1 | h1 <;>
      (rw [heq] at h1;
       have := congrArg (fun s : String => s.data.length) h1;
       simp only [String.data_append, List.length_append, hiy, hay] at this;
       omega)
  · intro fn; rfl

theorem dotted_key_literal_spelling_not_matched_witness :
    match_key "taron" "t.aron" (⟨0, FunDec.mk "taron" [] []⟩ : Rc FunDec) =
      some (Tense.Present, ⟨0, FunDec.mk "taron" [] []⟩) ∧
    containsChar "t.aron" '.' = true ∧
    ("taron" : String) ≠ "t.aron" := by
  refine ⟨rfl, rfl, ?_⟩
  exact dotted_key_literal_spelling_not_matched.2.1 "taron" "t.aron"
    ⟨0, FunDec.mk "taron" [] []⟩ Tense.Present ⟨0, FunDec.mk "taron" [] []⟩ rfl rfl

/-- C3: when several visible declarations match the same call spelling
`match_function` returns the first match in the scope's search order,
innermost layer first (the modelled iteration order of the scope map):
a match in the innermost layer wins regardless of outer layers, no
match in the innermost layer defers to the outer layers, and a key
that only existed in an already-popped layer is never returned because
popping removes that layer from the map. -/
theorem match_function_innermost_first :
    (∀ (name : String) (layer : Layer (Rc FunDec)) (rest : ScopeMap (Rc FunDec))
        (r : Tense × Rc FunDec),
      match_layer name layer = some r →
      match_function name (layer :: rest) = some r) ∧
    (∀ (name : String) (layer : Layer (Rc FunDec)) (rest : ScopeMap (Rc FunDec)),
      match_layer name layer = none →
      match_function name (layer :: rest) = match_function name rest) ∧
    (∀ f1 f2 : Rc FunDec,
      match_function "taron" [[("t.aron", f1)], [("taron", f2)]] =
        some (Tense.Present, f1)) ∧
    (∀ f1 f2 : Rc FunDec,
      match_function "taron"
        (ScopeMap.pop_layer [[("t.aron", f1)], [("taron", f2)]]) =
        some (Tense.Present, f2)) ∧
    (∀ f1 fS : Rc FunDec,
      match_function "taron"
        (ScopeMap.pop_layer [[("t.aron", f1)], [("scope", fS)]]) = none) := by
  refine ⟨?_, ?_, ?_, ?_, ?_⟩
  · intro name layer rest r hm
    simp only [match_layer] at hm
    simp only [match_function, ScopeMap.entries, List.flatten_cons,
      List.findSome?_append, hm]
    rfl
  · intro name layer rest hm
    simp only [match_layer] at hm
    simp only [match_function, ScopeMap.entries, List.flatten_cons,
      List.findSome?_append, hm]
    rfl
  · intro f1 f2; rfl
  · intro f1 f2; rfl
  · intro f1 fS; rfl

theorem match_function_innermost_first_witness :
    match_layer "taron" [("t.aron", (⟨7, FunDec.mk "taron" [] []⟩ : Rc FunDec))] =
      some (Tense.Present, ⟨7, FunDec.mk "taron" [] []⟩) ∧
    match_function "taron"
        [[("t.aron", (⟨7, FunDec.mk "taron" [] []⟩ : Rc FunDec))],
         [("taron", (⟨8, FunDec.mk "taron" [] []⟩ : Rc FunDec))]] =
      some (Tense.Present, ⟨7, FunDec.mk "taron" [] []⟩) := by
  refine ⟨rfl, ?_⟩
  exact match_function_innermost_first.1 "taron"
    [("t.aron", ⟨7, FunDec.mk "taron" [] []⟩)]
    [[("taron", ⟨8, FunDec.mk "taron" [] []⟩)]]
    (Tense.Present, ⟨7, FunDec.mk "taron" [] []⟩) rfl

/-- A concrete span for closed examples. -/
def sp0 : Span := ⟨1, 0, 1, 5, "example line"⟩

/-- C2 (failure evidence): as written, `convert_expr` in
`src/binding.rs` never returns a converted node and never returns an
error value: the match over the expression is terminated with `;` (its
value is discarded) and the function falls through to an unconditional
`todo!("{span:?}")` panic (its unresolved-name branches are themselves
`todo!()` with a `// FIXME: Error` marker), so every expression
conversion aborts the process; consequently a statement containing any
expression — here the statement `Expr(Ident "x")` — also panics
instead of producing a result carrying a Diagnostic Trace. -/
theorem convert_expr_always_panics :
    (∀ (e : AyNode PExpr) (vars : ScopeMap (Rc VarDec)) (funs : ScopeMap (Rc FunDec)),
      convert_expr e vars funs = none) ∧
    convert_statement ⟨sp0, PStatement.Expr ⟨sp0, PExpr.Ident "x"⟩⟩ initState = none := by
  have h1 : ∀ (e : AyNode PExpr) (vars : ScopeMap (Rc VarDec))
      (funs : ScopeMap (Rc FunDec)), convert_expr e vars funs = none := by
    intro e vars funs
    obtain ⟨sp, i⟩ := e
    simp [convert_expr]
  exact ⟨h1, by simp [convert_statement, h1]⟩

theorem ScopeMap.get_define_self {α : Type} (n : String) (v : α) (m : ScopeMap α) :
    ScopeMap.get n (ScopeMap.define n v m) = some v := by
  cases m <;>
    simp [ScopeMap.define, ScopeMap.get, ScopeMap.entries, List.findSome?_cons]

theorem ScopeMap.get_define_other {α : Type} {n n' : String} (hne : n ≠ n')
    (v : α) (m : ScopeMap α) :
    ScopeMap.get n (ScopeMap.define n' v m) = ScopeMap.get n m := by
  have h : ¬ (n' = n) := fun h => hne h.symm
  cases m <;>
    simp [ScopeMap.define, ScopeMap.get, ScopeMap.entries, List.findSome?_cons, h]

theorem ScopeMap.get_foldl_define {α : Type} (v : α) :
    ∀ (names : List String) (m : ScopeMap α) (n : String),
      ScopeMap.get n (names.foldl (fun acc nm => ScopeMap.define nm v acc) m) =
        if n ∈ names then some v else ScopeMap.get n m := by
  intro names
  induction names with
  | nil => intro m n; simp
  | cons x rest ih =>
    intro m n
    simp only [List.foldl_cons]
    rw [ih]
    by_cases hx : n ∈ rest
    · simp [hx]
    · by_cases hnx : n = x
      · subst hnx
        simp [hx, ScopeMap.get_define_self]
      · simp [hx, hnx, ScopeMap.get_define_other hnx v m]

theorem ScopeMap.define_frames {α : Type} (nm : String) (v : α) {m : ScopeMap α}
    (h : m ≠ []) :
    (ScopeMap.define nm v m).tail = m.tail ∧ ScopeMap.define nm v m ≠ [] := by
  cases m with
  | nil => exact absurd rfl h
  | cons l rest => simp [ScopeMap.define]

theorem foldl_define_frames {α : Type} (v : α) :
    ∀ (names : List String) {m : ScopeMap α}, m ≠ [] →
      (names.foldl (fun acc nm => ScopeMap.define nm v acc) m).tail = m.tail ∧
      names.foldl (fun acc nm => ScopeMap.define nm v acc) m ≠ [] := by
  intro names
  induction names with
  | nil => intro m h; exact ⟨rfl, h⟩
  | cons x rest ih =>
    intro m h
    simp only [List.foldl_cons]
    obtain ⟨h1, h2⟩ := ScopeMap.define_frames x v h
    obtain ⟨h3, h4⟩ := ih h2
    exact ⟨h3.trans h1, h4⟩

/-- The scope-frame invariant of a conversion step: every layer below
the innermost one is untouched on both scope maps, and the maps stay
nonempty. -/
def scopeFrames (s s2 : BindState) : Prop :=
  s2.vars.tail = s.vars.tail ∧ s2.funs.tail = s.funs.tail ∧
  s2.vars ≠ [] ∧ s2.funs ≠ []

/-- Frame preservation for the fuel-indexed conversion: a successful
statement (or statement-list) conversion leaves every scope layer below
the innermost one untouched, on both maps, and keeps the maps
nonempty — the `wrap_scope!` push/pop pairs are balanced. -/
theorem convert_statementF_frames : ∀ n : Nat,
    (∀ st s r s2, s.vars ≠ [] → s.funs ≠ [] →
      convert_statementF n st s = some (.ok (r, s2)) → scopeFrames s s2) ∧
    (∀ l s r s2, s.vars ≠ [] → s.funs ≠ [] →
      convert_statementsF n l s = some (.ok (r, s2)) → scopeFrames s s2) := by
  intro n
  induction n with
  | zero =>
    constructor
    · intro st s r s2 _ _ h; simp [convert_statementF] at h
    · intro l s r s2 _ _ h; simp [convert_statementsF] at h
  | succ n ih =>
    constructor
    · intro st s r s2 hv hf h
      obtain ⟨sp, i⟩ := st
      cases i with
      | VarDec names values =>
        simp only [convert_statementF] at h
        cases hx : convert_exprsF n values s.vars s.funs with
        | none => rw [hx] at h; simp at h
        | some r1 =>
          rw [hx] at h
          cases r1 with
          | error t => simp at h
          | ok values2 =>
            simp only [Option.some.injEq, Except.ok.injEq, Prod.mk.injEq] at h
            obtain ⟨hr, hs2⟩ := h
            subst hs2
            obtain ⟨h1, h2⟩ := foldl_define_frames
              (⟨s.nextId, VarDec.mk names values2⟩ : Rc VarDec) names hv
            exact ⟨h1, rfl, h2, hf⟩
      | FunDec name args body =>
        simp only [convert_statementF] at h
        cases hx : convert_statementsF n body s.pushScopes with
        | none => rw [hx] at h; simp at h
        | some r1 =>
          rw [hx] at h
          cases r1 with
          | error t => simp at h
          | ok p =>
            obtain ⟨body2, sMid⟩ := p
            have hmid := ih.2 body s.pushScopes body2 sMid
              (by simp [BindState.pushScopes, ScopeMap.push_layer])
              (by simp [BindState.pushScopes, ScopeMap.push_layer]) hx
            obtain ⟨m1, m2, m3, m4⟩ := hmid
            simp only [BindState.pushScopes, ScopeMap.push_layer, List.tail_cons]
              at m1 m2
            simp only [Option.some.injEq, Except.ok.injEq, Prod.mk.injEq] at h
            obtain ⟨hr, hs2⟩ := h
            subst hs2
            have hv2 : sMid.popScopes.vars = s.vars := by
              simp [BindState.popScopes, ScopeMap.pop_layer, m1]
            have hf2 : sMid.popScopes.funs = s.funs := by
              simp [BindState.popScopes, ScopeMap.pop_layer, m2]
            obtain ⟨d1, d2⟩ := ScopeMap.define_frames name
              (⟨sMid.popScopes.nextId, FunDec.mk name args body2⟩ : Rc FunDec)
              (m := sMid.popScopes.funs) (by rw [hf2]; exact hf)
            refine ⟨?_, ?_, ?_, ?_⟩
            · simp [hv2]
            · simpa [hf2] using d1
            · simpa [hv2] using hv
            · simpa using d2
      | Expr e =>
        simp only [convert_statementF] at h
        cases hx : convert_exprF n e s.vars s.funs with
        | none => rw [hx] at h; simp at h
        | some r1 =>
          rw [hx] at h
          cases r1 with
          | error t => simp at h
          | ok e2 =>
            simp only [Option.some.injEq, Except.ok.injEq, Prod.mk.injEq] at h
            obtain ⟨hr, hs2⟩ := h
            subst hs2
            exact ⟨rfl, rfl, hv, hf⟩
      | If cond thenBr otherwiseBr =>
        simp only [convert_statementF] at h
        cases hc : convert_exprF n cond s.vars s.funs with
        | none => rw [hc] at h; simp at h
        | some rc0 =>
          rw [hc] at h
          cases rc0 with
          | error t => simp at h
          | ok cond2 =>
            cases ht : convert_statementsF n thenBr s.pushScopes with
            | none => rw [ht] at h; simp at h
            | some rt =>
              rw [ht] at h
              cases rt with
              | error t => simp at h
              | ok p =>
                obtain ⟨then2, sA⟩ := p
                dsimp only at h
                have hA := ih.2 thenBr s.pushScopes then2 sA
                  (by simp [BindState.pushScopes, ScopeMap.push_layer])
                  (by simp [BindState.pushScopes, ScopeMap.push_layer]) ht
                obtain ⟨a1, a2, a3, a4⟩ := hA
                simp only [BindState.pushScopes, ScopeMap.push_layer, List.tail_cons]
                  at a1 a2
                cases ho : convert_statementsF n otherwiseBr sA.popScopes.pushScopes with
                | none => rw [ho] at h; simp at h
                | some ro =>
                  rw [ho] at h
                  cases ro with
                  | error t => simp at h
                  | ok q =>
                    obtain ⟨otherwise2, sB⟩ := q
                    have hvB : sA.popScopes.pushScopes.vars = [] :: s.vars := by
                      simp [BindState.popScopes, BindState.pushScopes,
                        ScopeMap.pop_layer, ScopeMap.push_layer, a1]
                    have hfB : sA.popScopes.pushScopes.funs = [] :: s.funs := by
                      simp [BindState.popScopes, BindState.pushScopes,
                        ScopeMap.pop_layer, ScopeMap.push_layer, a2]
                    have hB := ih.2 otherwiseBr sA.popScopes.pushScopes otherwise2 sB
                      (by rw [hvB]; simp) (by rw [hfB]; simp) ho
                    obtain ⟨b1, b2, b3, b4⟩ := hB
                    rw [hvB] at b1
                    rw [hfB] at b2
                    simp only [List.tail_cons] at b1 b2
                    simp only [Option.some.injEq, Except.ok.injEq, Prod.mk.injEq] at h
                    obtain ⟨hr, hs2⟩ := h
                    subst hs2
                    refine ⟨?_, ?_, ?_, ?_⟩ <;>
                      simp [BindState.popScopes, ScopeMap.pop_layer, b1, b2, hv, hf]
      | Loop cond body =>
        simp only [convert_statementF] at h
        cases cond with
        | none =>
          dsimp only at h
          cases hx : convert_statementsF n body s.pushScopes with
          | none => rw [hx] at h; simp at h
          | some r1 =>
            rw [hx] at h
            cases r1 with
            | error t => simp at h
            | ok p =>
              obtain ⟨body2, sMid⟩ := p
              have hmid := ih.2 body s.pushScopes body2 sMid
                (by simp [BindState.pushScopes, ScopeMap.push_layer])
                (by simp [BindState.pushScopes, ScopeMap.push_layer]) hx
              obtain ⟨m1, m2, m3, m4⟩ := hmid
              simp only [BindState.pushScopes, ScopeMap.push_layer, List.tail_cons]
                at m1 m2
              simp only [Option.some.injEq, Except.ok.injEq, Prod.mk.injEq] at h
              obtain ⟨hr, hs2⟩ := h
              subst hs2
              refine ⟨?_, ?_, ?_, ?_⟩ <;>
                simp [BindState.popScopes, ScopeMap.pop_layer, m1, m2, hv, hf]
        | some c =>
          dsimp only at h
          cases hc : convert_exprF n c s.vars s.funs with
          | none => rw [hc] at h; simp at h
          | some rc0 =>
            rw [hc] at h
            cases rc0 with
            | error t => simp at h
            | ok c2 =>
              cases hx : convert_statementsF n body s.pushScopes with
              | none => rw [hx] at h; simp at h
              | some r1 =>
                rw [hx] at h
                cases r1 with
                | error t => simp at h
                | ok p =>
                  obtain ⟨body2, sMid⟩ := p
                  have hmid := ih.2 body s.pushScopes body2 sMid
                    (by simp [BindState.pushScopes, ScopeMap.push_layer])
                    (by simp [BindState.pushScopes, ScopeMap.push_layer]) hx
                  obtain ⟨m1, m2, m3, m4⟩ := hmid
                  simp only [BindState.pushScopes, ScopeMap.push_layer, List.tail_cons]
                    at m1 m2
                  simp only [Option.some.injEq, Except.ok.injEq, Prod.mk.injEq] at h
                  obtain ⟨hr, hs2⟩ := h
                  subst hs2
                  refine ⟨?_, ?_, ?_, ?_⟩ <;>
                    simp [BindState.popScopes, ScopeMap.pop_layer, m1, m2, hv, hf]
    · intro l s r s2 hv hf h
      cases l with
      | nil =>
        simp only [convert_statementsF, Option.some.injEq, Except.ok.injEq,
          Prod.mk.injEq] at h
        obtain ⟨_, hs2⟩ := h
        subst hs2
        exact ⟨rfl, rfl, hv, hf⟩
      | cons st rest =>
        simp only [convert_statementsF] at h
        cases h1 : convert_statementF n st s with
        | none => rw [h1] at h; simp at h
        | some r1 =>
          rw [h1] at h
          cases r1 with
          | error t => simp at h
          | ok p =>
            obtain ⟨st2, sMid⟩ := p
            dsimp only at h
            have hm := ih.1 st s st2 sMid hv hf h1
            obtain ⟨m1, m2, m3, m4⟩ := hm
            cases h2 : convert_statementsF n rest sMid with
            | none => rw [h2] at h; simp at h
            | some r2 =>
              rw [h2] at h
              cases r2 with
              | error t => simp at h
              | ok q =>
                obtain ⟨rest2, sEnd⟩ := q
                have he := ih.2 rest sMid rest2 sEnd m3 m4 h2
                obtain ⟨e1, e2, e3, e4⟩ := he
                simp only [Option.some.injEq, Except.ok.injEq, Prod.mk.injEq] at h
                obtain ⟨hr, hs2⟩ := h
                subst hs2
                exact ⟨e1.trans m1, e2.trans m2, e3, e4⟩

/-- Evaluating the intended statement conversion through the
fuel-indexed one: any sufficiently fuelled run determines it. -/
theorem convert_statementI_eval {st : AyNode PStatement} {s : BindState}
    {v : Except Trace (AyNode Statement × BindState)} (n : Nat) (hn : sizeS st ≤ n)
    (h : convert_statementF n st s = some v) : convert_statementI st s = v := by
  have ha := (convert_statementF_adequate n).1 st s hn
  rw [h] at ha
  exact (Option.some.inj ha).symm

/-- Evaluating the intended statement-list conversion through the
fuel-indexed one. -/
theorem convert_statementsI_eval {l : List (AyNode PStatement)} {s : BindState}
    {v : Except Trace (List (AyNode Statement) × BindState)} (n : Nat)
    (hn : sizeSs l ≤ n)
    (h : convert_statementsF n l s = some v) : convert_statementsI l s = v := by
  have ha := (convert_statementF_adequate n).2 l s hn
  rw [h] at ha
  exact (Option.some.inj ha).symm

/-- Frame preservation, transferred to the fuel-free conversion:
a successful statement-list conversion touches only the innermost
layer of each scope map. -/
theorem convert_statementsI_frames {l : List (AyNode PStatement)} {s : BindState}
    {r : List (AyNode Statement)} {s2 : BindState}
    (hv : s.vars ≠ []) (hf : s.funs ≠ [])
    (h : convert_statementsI l s = .ok (r, s2)) : scopeFrames s s2 := by
  have ha := (convert_statementF_adequate (sizeSs l)).2 l s (Nat.le_refl _)
  rw [h] at ha
  exact (convert_statementF_frames (sizeSs l)).2 l s r s2 hv hf ha

/-- Frame preservation for a single statement, on the fuel-free
conversion. -/
theorem convert_statementI_frames {st : AyNode PStatement} {s : BindState}
    {r : AyNode Statement} {s2 : BindState}
    (hv : s.vars ≠ []) (hf : s.funs ≠ [])
    (h : convert_statementI st s = .ok (r, s2)) : scopeFrames s s2 := by
  have ha := (convert_statementF_adequate (sizeS st)).1 st s (Nat.le_refl _)
  rw [h] at ha
  exact (convert_statementF_frames (sizeS st)).1 st s r s2 hv hf ha

/-- Structure of a successful `FunDec` conversion: the body is
converted inside a freshly pushed layer pair (in which the function's
own name is not yet defined), the layers are popped, the shared
declaration is created, and only then is the name registered in the
enclosing function scope. -/
theorem convert_statementI_FunDec {sp : Span} {name : String} {args : List String}
    {body : List (AyNode PStatement)} {s : BindState} {r : AyNode Statement}
    {s2 : BindState}
    (h : convert_statementI ⟨sp, PStatement.FunDec name args body⟩ s = .ok (r, s2)) :
    ∃ body2 sMid, convert_statementsI body s.pushScopes = .ok (body2, sMid) ∧
      r = ⟨sp, Statement.FunDec ⟨sMid.popScopes.nextId, FunDec.mk name args body2⟩⟩ ∧
      s2 = ⟨sMid.popScopes.vars,
            ScopeMap.define name ⟨sMid.popScopes.nextId, FunDec.mk name args body2⟩
              sMid.popScopes.funs,
            sMid.popScopes.nextId + 1⟩ := by
  simp only [convert_statementI] at h
  cases hx : convert_statementsI body s.pushScopes with
  | error t => rw [hx] at h; simp at h
  | ok p =>
    obtain ⟨body2, sMid⟩ := p
    rw [hx] at h
    dsimp only at h
    simp only [Except.ok.injEq, Prod.mk.injEq] at h
    obtain ⟨hr, hs2⟩ := h
    exact ⟨body2, sMid, rfl, hr.symm, hs2.symm⟩

/-- Structure of a successful `VarDec` conversion: the value
expressions are converted against the scopes as they were before any
of the declared names is defined; afterwards one shared declaration is
created and every name is defined in the innermost variable layer
pointing at it. -/
theorem convert_statementI_VarDec {sp : Span} {names : List String}
    {values : List (AyNode PExpr)} {s : BindState} {r : AyNode Statement}
    {s2 : BindState}
    (h : convert_statementI ⟨sp, PStatement.VarDec names values⟩ s = .ok (r, s2)) :
    ∃ values2, convert_exprsI values s.vars s.funs = .ok values2 ∧
      r = ⟨sp, Statement.VarDec ⟨s.nextId, VarDec.mk names values2⟩⟩ ∧
      s2 = ⟨names.foldl
              (fun m nm => ScopeMap.define nm ⟨s.nextId, VarDec.mk names values2⟩ m)
              s.vars,
            s.funs, s.nextId + 1⟩ := by
  simp only [convert_statementI] at h
  cases hx : convert_exprsI values s.vars s.funs with
  | error t => rw [hx] at h; simp at h
  | ok values2 =>
    rw [hx] at h
    dsimp only at h
    simp only [Except.ok.injEq, Prod.mk.injEq] at h
    obtain ⟨hr, hs2⟩ := h
    exact ⟨values2, rfl, hr.symm, hs2.symm⟩

/-- A successful `If` conversion restores both scope maps exactly:
each branch runs in its own pushed-then-popped layer. -/
theorem convert_statementI_If_scopes {sp : Span} {cond : AyNode PExpr}
    {thenBr otherwiseBr : List (AyNode PStatement)} {s : BindState}
    {r : AyNode Statement} {s2 : BindState}
    (h : convert_statementI ⟨sp, PStatement.If cond thenBr otherwiseBr⟩ s =
      .ok (r, s2)) :
    s2.vars = s.vars ∧ s2.funs = s.funs := by
  simp only [convert_statementI] at h
  cases hc : convert_exprI cond s.vars s.funs with
  | error t => rw [hc] at h; simp at h
  | ok cond2 =>
    rw [hc] at h
    dsimp only at h
    cases ht : convert_statementsI thenBr s.pushScopes with
    | error t => rw [ht] at h; simp at h
    | ok p =>
      obtain ⟨then2, sA⟩ := p
      rw [ht] at h
      dsimp only at h
      have hA := convert_statementsI_frames
        (by simp [BindState.pushScopes, ScopeMap.push_layer])
        (by simp [BindState.pushScopes, ScopeMap.push_layer]) ht
      obtain ⟨a1, a2, a3, a4⟩ := hA
      simp only [BindState.pushScopes, ScopeMap.push_layer, List.tail_cons] at a1 a2
      cases ho : convert_statementsI otherwiseBr sA.popScopes.pushScopes with
      | error t => rw [ho] at h; simp at h
      | ok q =>
        obtain ⟨otherwise2, sB⟩ := q
        rw [ho] at h
        dsimp only at h
        have hvB : sA.popScopes.pushScopes.vars = [] :: s.vars := by
          simp [BindState.popScopes, BindState.pushScopes,
            ScopeMap.pop_layer, ScopeMap.push_layer, a1]
        have hfB : sA.popScopes.pushScopes.funs = [] :: s.funs := by
          simp [BindState.popScopes, BindState.pushScopes,
            ScopeMap.pop_layer, ScopeMap.push_layer, a2]
        have hB := convert_statementsI_frames
          (by rw [hvB]; simp) (by rw [hfB]; simp) ho
        obtain ⟨b1, b2, b3, b4⟩ := hB
        rw [hvB] at b1
        rw [hfB] at b2
        simp only [List.tail_cons] at b1 b2
        simp only [Except.ok.injEq, Prod.mk.injEq] at h
        obtain ⟨hr, hs2⟩ := h
        subst hs2
        constructor <;> simp [BindState.popScopes, ScopeMap.pop_layer, b1, b2]

/-- A successful `Loop` conversion restores both scope maps exactly:
the body runs in its own pushed-then-popped layer. -/
theorem convert_statementI_Loop_scopes {sp : Span} {cond : Option (AyNode PExpr)}
    {body : List (AyNode PStatement)} {s : BindState}
    {r : AyNode Statement} {s2 : BindState}
    (h : convert_statementI ⟨sp, PStatement.Loop cond body⟩ s = .ok (r, s2)) :
    s2.vars = s.vars ∧ s2.funs = s.funs := by
  have hbody : ∀ body2 sMid, convert_statementsI body s.pushScopes = .ok (body2, sMid) →
      sMid.popScopes.vars = s.vars ∧ sMid.popScopes.funs = s.funs := by
    intro body2 sMid hx
    have hm := convert_statementsI_frames
      (by simp [BindState.pushScopes, ScopeMap.push_layer])
      (by simp [BindState.pushScopes, ScopeMap.push_layer]) hx
    obtain ⟨m1, m2, m3, m4⟩ := hm
    simp only [BindState.pushScopes, ScopeMap.push_layer, List.tail_cons] at m1 m2
    constructor <;> simp [BindState.popScopes, ScopeMap.pop_layer, m1, m2]
  cases cond with
  | none =>
    simp only [convert_statementI] at h
    cases hx : convert_statementsI body s.pushScopes with
    | error t => rw [hx] at h; simp at h
    | ok p =>
      obtain ⟨body2, sMid⟩ := p
      rw [hx] at h
      dsimp only at h
      simp only [Except.ok.injEq, Prod.mk.injEq] at h
      obtain ⟨hr, hs2⟩ := h
      subst hs2
      exact hbody body2 sMid hx
  | some c =>
    simp only [convert_statementI] at h
    cases hc : convert_exprI c s.vars s.funs with
    | error t => rw [hc] at h; simp at h
    | ok c2 =>
      rw [hc] at h
      dsimp only at h
      cases hx : convert_statementsI body s.pushScopes with
      | error t => rw [hx] at h; simp at h
      | ok p =>
        obtain ⟨body2, sMid⟩ := p
        rw [hx] at h
        dsimp only at h
        simp only [Except.ok.injEq, Prod.mk.injEq] at h
        obtain ⟨hr, hs2⟩ := h
        subst hs2
        exact hbody body2 sMid hx

/-- C9: binding always terminates and its recursion is bounded by the
structural size of the input tree: with fuel equal to the input's
size, the fuel-indexed conversion never runs out of fuel and computes
exactly the fuel-free conversion, both for statements and for
expressions. -/
theorem binding_bounded_by_tree_size :
    (∀ (st : AyNode PStatement) (s : BindState),
      convert_statementF (sizeS st) st s = some (convert_statementI st s)) ∧
    (∀ (e : AyNode PExpr) (vars : ScopeMap (Rc VarDec)) (funs : ScopeMap (Rc FunDec)),
      convert_exprF (sizeE e) e vars funs = some (convert_exprI e vars funs)) :=
  ⟨fun st s => (convert_statementF_adequate (sizeS st)).1 st s (Nat.le_refl _),
   fun e vars funs => (convert_exprF_adequate (sizeE e)).1 e vars funs (Nat.le_refl _)⟩

/-- Branch-isolation example: the `then` branch declares `x`, the
`otherwise` branch reads `x`. -/
def progThenDecl : AyNode PStatement :=
  ⟨sp0, PStatement.If ⟨sp0, PExpr.Number 0⟩
    [⟨sp0, PStatement.VarDec ["x"] [⟨sp0, PExpr.Number 1⟩]⟩]
    [⟨sp0, PStatement.Expr ⟨sp0, PExpr.Ident "x"⟩⟩]⟩

/-- Branch-isolation example, mirrored: the `then` branch reads `y`,
which only the `otherwise` branch declares. -/
def progOtherDecl : AyNode PStatement :=
  ⟨sp0, PStatement.If ⟨sp0, PExpr.Number 0⟩
    [⟨sp0, PStatement.Expr ⟨sp0, PExpr.Ident "y"⟩⟩]
    [⟨sp0, PStatement.VarDec ["y"] [⟨sp0, PExpr.Number 1⟩]⟩]⟩

/-- Scope-escape example: `x` is declared inside an `if` branch and
read by the following statement, after the branch layer was popped. -/
def progIfThenUse : List (AyNode PStatement) :=
  [⟨sp0, PStatement.If ⟨sp0, PExpr.Number 0⟩
     [⟨sp0, PStatement.VarDec ["x"] [⟨sp0, PExpr.Number 1⟩]⟩] []⟩,
   ⟨sp0, PStatement.Expr ⟨sp0, PExpr.Ident "x"⟩⟩]

/-- Scope-escape example: a function with a dotted key declared inside
another function's body. -/
def progNestedFun : AyNode PStatement :=
  ⟨sp0, PStatement.FunDec "outer" [] [⟨sp0, PStatement.FunDec "t.aron" [] []⟩]⟩

/-- The shared declaration created for the inner "t.aron". -/
def rcTaronInner : Rc FunDec := ⟨0, FunDec.mk "t.aron" [] []⟩

/-- The shared declaration created for "outer". -/
def rcOuterFun : Rc FunDec :=
  ⟨1, FunDec.mk "outer" [] [⟨sp0, Statement.FunDec rcTaronInner⟩]⟩

/-- C5: scope escape and branch isolation.  A successful `If` or `Loop`
conversion returns both scope maps exactly as they were, so a name
defined while the construct's layer was open resolves afterwards
exactly as it did before (an undeclared name stays unresolvable); a
successful `FunDec` conversion restores the variable scope and extends
the function scope with the declared name only.  Concretely, a
variable declared in an `if`'s `then` branch is not visible while
binding the `otherwise` branch and vice versa (both example programs
fail binding), a branch-local variable is invisible to the following
statement, and a function declared inside a nested scope is
unresolvable under all three tense spellings once that scope is
popped. -/
theorem scope_escape_and_branch_isolation :
    (∀ (sp : Span) (cond : AyNode PExpr)
        (thenBr otherwiseBr : List (AyNode PStatement))
        (s : BindState) (r : AyNode Statement) (s2 : BindState),
      convert_statementI ⟨sp, PStatement.If cond thenBr otherwiseBr⟩ s =
        .ok (r, s2) → s2.vars = s.vars ∧ s2.funs = s.funs) ∧
    (∀ (sp : Span) (cond : Option (AyNode PExpr)) (body : List (AyNode PStatement))
        (s : BindState) (r : AyNode Statement) (s2 : BindState),
      convert_statementI ⟨sp, PStatement.Loop cond body⟩ s = .ok (r, s2) →
      s2.vars = s.vars ∧ s2.funs = s.funs) ∧
    (∀ (sp : Span) (name : String) (args : List String)
        (body : List (AyNode PStatement)) (s : BindState) (r : AyNode Statement)
        (s2 : BindState),
      convert_statementI ⟨sp, PStatement.FunDec name args body⟩ s = .ok (r, s2) →
      s2.vars = s.vars ∧ ∃ rc, s2.funs = ScopeMap.define name rc s.funs) ∧
    isErr (convert_statementI progThenDecl initState) = true ∧
    isErr (convert_statementI progOtherDecl initState) = true ∧
    isErr (convert_statementsI progIfThenUse initState) = true ∧
    (convert_statementI progNestedFun initState =
      .ok (⟨sp0, Statement.FunDec rcOuterFun⟩,
        ⟨[[]], [[("outer", rcOuterFun)]], 2⟩) ∧
     match_function "taron" [[("outer", rcOuterFun)]] = none ∧
     match_function "tìyaron" [[("outer", rcOuterFun)]] = none ∧
     match_function "tayaron" [[("outer", rcOuterFun)]] = none) := by
  refine ⟨?_, ?_, ?_, ?_, ?_, ?_, ?_, rfl, rfl, rfl⟩
  · intro sp cond thenBr otherwiseBr s r s2 h
    exact convert_statementI_If_scopes h
  · intro sp cond body s r s2 h
    exact convert_statementI_Loop_scopes h
  · intro sp name args body s r s2 h
    obtain ⟨body2, sMid, hb, hr, hs2⟩ := convert_statementI_FunDec h
    have hm := convert_statementsI_frames
      (by simp [BindState.pushScopes, ScopeMap.push_layer])
      (by simp [BindState.pushScopes, ScopeMap.push_layer]) hb
    obtain ⟨m1, m2, m3, m4⟩ := hm
    simp only [BindState.pushScopes, ScopeMap.push_layer, List.tail_cons] at m1 m2
    subst hs2
    constructor
    · simp [BindState.popScopes, ScopeMap.pop_layer, m1]
    · refine ⟨⟨sMid.popScopes.nextId, FunDec.mk name args body2⟩, ?_⟩
      simp [BindState.popScopes, ScopeMap.pop_layer, m2]
  · obtain ⟨t, ht⟩ : ∃ t, convert_statementF 30 progThenDecl initState =
        some (.error t) := ⟨_, rfl⟩
    rw [convert_statementI_eval 30 (by simp [progThenDecl, sizeS, sizeE, sizeSs, sizeEs]) ht]
    rfl
  · obtain ⟨t, ht⟩ : ∃ t, convert_statementF 30 progOtherDecl initState =
        some (.error t) := ⟨_, rfl⟩
    rw [convert_statementI_eval 30 (by simp [progOtherDecl, sizeS, sizeE, sizeSs, sizeEs]) ht]
    rfl
  · obtain ⟨t, ht⟩ : ∃ t, convert_statementsF 30 progIfThenUse initState =
        some (.error t) := ⟨_, rfl⟩
    rw [convert_statementsI_eval 30 (by simp [progIfThenUse, sizeS, sizeE, sizeSs, sizeEs]) ht]
    rfl
  · exact convert_statementI_eval 30
      (by simp [progNestedFun, sizeS, sizeE, sizeSs, sizeEs]) rfl

theorem scope_escape_and_branch_isolation_witness :
    convert_statementI ⟨sp0, PStatement.If ⟨sp0, PExpr.Number 0⟩ [] []⟩ initState =
      .ok (⟨sp0, Statement.If ⟨sp0, Expr.Number 0⟩ [] []⟩, initState) ∧
    initState.vars = initState.vars ∧ initState.funs = initState.funs := by
  have h : convert_statementI ⟨sp0, PStatement.If ⟨sp0, PExpr.Number 0⟩ [] []⟩
      initState = .ok (⟨sp0, Statement.If ⟨sp0, Expr.Number 0⟩ [] []⟩, initState) :=
    convert_statementI_eval 10 (by simp [sizeS, sizeE, sizeSs]) rfl
  exact ⟨h, scope_escape_and_branch_isolation.1 sp0 ⟨sp0, PExpr.Number 0⟩ [] []
    initState ⟨sp0, Statement.If ⟨sp0, Expr.Number 0⟩ [] []⟩ initState h⟩

theorem match_function_define_self (name : String) (rc : Rc FunDec)
    (m : ScopeMap (Rc FunDec)) (h : containsChar name '.' = false) :
    match_function name (ScopeMap.define name rc m) = some (Tense.Present, rc) := by
  cases m <;>
    simp [ScopeMap.define, match_function, ScopeMap.entries, List.findSome?_cons,
      match_key, h]

/-- Counterexample program for recursive visibility: a function whose
body calls the function itself. -/
def progRecFun : AyNode PStatement :=
  ⟨sp0, PStatement.FunDec "f" [] [⟨sp0, PStatement.Expr ⟨sp0, PExpr.FunCall "f" []⟩⟩]⟩

/-- A declaration followed by a sibling call site. -/
def progSiblingCall : List (AyNode PStatement) :=
  [⟨sp0, PStatement.FunDec "f" [] []⟩,
   ⟨sp0, PStatement.Expr ⟨sp0, PExpr.FunCall "f" []⟩⟩]

/-- The shared declaration created for the sibling-call example. -/
def rcF : Rc FunDec := ⟨0, FunDec.mk "f" [] []⟩

/-- C4 (counterexample): a `FunDec` whose body contains a call spelled
exactly like its own key does not resolve that inner call to the
declaration being created — the name is registered only after the body
has been converted, so binding the body fails with an unresolved
function. -/
theorem fun_dec_recursive_call_unresolved :
    isErr (convert_statementI progRecFun initState) = true := by
  obtain ⟨t, ht⟩ : ∃ t, convert_statementF 30 progRecFun initState =
      some (.error t) := ⟨_, rfl⟩
  rw [convert_statementI_eval 30 (by simp [progRecFun, sizeS, sizeE, sizeSs, sizeEs]) ht]
  rfl

/-- C4 (amended): when the binder converts a `FunDec` statement the
body is converted first, inside a fresh layer of the *unextended*
enclosing scopes, and only afterwards is the declaration registered
under its name in the enclosing function scope; the declaration is
therefore visible to call sites converted after the declaration
(outside its own body) — for an undotted name it resolves with tense
Present to the exact shared declaration — but it is not visible to
call sites inside its own body. -/
theorem fun_dec_registered_after_body :
    (∀ (sp : Span) (name : String) (args : List String)
        (body : List (AyNode PStatement)) (s : BindState) (r : AyNode Statement)
        (s2 : BindState),
      convert_statementI ⟨sp, PStatement.FunDec name args body⟩ s = .ok (r, s2) →
      ∃ body2 sMid,
        convert_statementsI body s.pushScopes = .ok (body2, sMid) ∧
        r = ⟨sp, Statement.FunDec ⟨sMid.popScopes.nextId, FunDec.mk name args body2⟩⟩ ∧
        s2.funs = ScopeMap.define name
          ⟨sMid.popScopes.nextId, FunDec.mk name args body2⟩ sMid.popScopes.funs) ∧
    (∀ (sp : Span) (name : String) (args : List String)
        (body : List (AyNode PStatement)) (s : BindState) (r : AyNode Statement)
        (s2 : BindState),
      containsChar name '.' = false →
      convert_statementI ⟨sp, PStatement.FunDec name args body⟩ s = .ok (r, s2) →
      ∃ rc : Rc FunDec, (Rc.val rc).name = name ∧
        match_function name s2.funs = some (Tense.Present, rc)) ∧
    convert_statementsI progSiblingCall initState =
      .ok ([⟨sp0, Statement.FunDec rcF⟩,
            ⟨sp0, Statement.Expr ⟨sp0, Expr.FunCall Tense.Present rcF "f" []⟩⟩],
           ⟨[[]], [[("f", rcF)]], 1⟩) := by
  refine ⟨?_, ?_, ?_⟩
  · intro sp name args body s r s2 h
    obtain ⟨body2, sMid, hb, hr, hs2⟩ := convert_statementI_FunDec h
    exact ⟨body2, sMid, hb, hr, by rw [hs2]⟩
  · intro sp name args body s r s2 hn h
    obtain ⟨body2, sMid, hb, hr, hs2⟩ := convert_statementI_FunDec h
    refine ⟨⟨sMid.popScopes.nextId, FunDec.mk name args body2⟩, rfl, ?_⟩
    rw [hs2]
    exact match_function_define_self name _ _ hn
  · exact convert_statementsI_eval 30
      (by simp [progSiblingCall, sizeS, sizeE, sizeSs, sizeEs]) rfl

theorem fun_dec_registered_after_body_witness :
    convert_statementI ⟨sp0, PStatement.FunDec "g" [] []⟩ initState =
      .ok (⟨sp0, Statement.FunDec ⟨0, FunDec.mk "g" [] []⟩⟩,
        ⟨[[]], [[("g", ⟨0, FunDec.mk "g" [] []⟩)]], 1⟩) ∧
    (∃ rc : Rc FunDec, (Rc.val rc).name = "g" ∧
      match_function "g" [[("g", (⟨0, FunDec.mk "g" [] []⟩ : Rc FunDec))]] =
        some (Tense.Present, rc)) := by
  have h : convert_statementI ⟨sp0, PStatement.FunDec "g" [] []⟩ initState =
      .ok (⟨sp0, Statement.FunDec ⟨0, FunDec.mk "g" [] []⟩⟩,
        ⟨[[]], [[("g", ⟨0, FunDec.mk "g" [] []⟩)]], 1⟩) :=
    convert_statementI_eval 10 (by simp [sizeS, sizeSs]) rfl
  exact ⟨h, fun_dec_registered_after_body.2.1 sp0 "g" [] [] initState
    ⟨sp0, Statement.FunDec ⟨0, FunDec.mk "g" [] []⟩⟩
    ⟨[[]], [[("g", ⟨0, FunDec.mk "g" [] []⟩)]], 1⟩ rfl h⟩

/-- C7: when converting a `VarDec`, every value expression is converted
against the scopes as they stood *before* any declared name is
defined: the successful conversion's values arise from the pre-state,
after it each declared name resolves in the innermost layer to the one
shared declaration; consequently an `Ident` inside a value expression
never resolves to the `VarDec` being declared — if the name has no
visible outer declaration the conversion fails with an unresolved
variable, and if an outer declaration is visible the value resolves to
that outer declaration. -/
theorem var_dec_values_before_names :
    (∀ (sp : Span) (names : List String) (values : List (AyNode PExpr))
        (s : BindState) (r : AyNode Statement) (s2 : BindState),
      convert_statementI ⟨sp, PStatement.VarDec names values⟩ s = .ok (r, s2) →
      ∃ values2, convert_exprsI values s.vars s.funs = .ok values2 ∧
        r = ⟨sp, Statement.VarDec ⟨s.nextId, VarDec.mk names values2⟩⟩ ∧
        s2.funs = s.funs ∧
        ∀ nm, nm ∈ names → ScopeMap.get nm s2.vars =
          some ⟨s.nextId, VarDec.mk names values2⟩) ∧
    (∀ (sp : Span) (name : String) (s : BindState),
      ScopeMap.get name s.vars = none →
      isErr (convert_statementI
        ⟨sp, PStatement.VarDec [name] [⟨sp, PExpr.Ident name⟩]⟩ s) = true) ∧
    (∀ (sp : Span) (name : String) (s : BindState) (rcO : Rc VarDec),
      ScopeMap.get name s.vars = some rcO →
      convert_statementI ⟨sp, PStatement.VarDec [name] [⟨sp, PExpr.Ident name⟩]⟩ s =
        .ok (⟨sp, Statement.VarDec
                ⟨s.nextId, VarDec.mk [name] [⟨sp, Expr.Var rcO⟩]⟩⟩,
          ⟨ScopeMap.define name ⟨s.nextId, VarDec.mk [name] [⟨sp, Expr.Var rcO⟩]⟩ s.vars,
           s.funs, s.nextId + 1⟩)) := by
  refine ⟨?_, ?_, ?_⟩
  · intro sp names values s r s2 h
    obtain ⟨values2, hv, hr, hs2⟩ := convert_statementI_VarDec h
    subst hs2
    refine ⟨values2, hv, hr, rfl, ?_⟩
    intro nm hnm
    rw [ScopeMap.get_foldl_define]
    simp [hnm]
  · intro sp name s h0
    simp [convert_statementI, convert_exprsI, convert_exprI, h0, isErr]
  · intro sp name s rcO h0
    simp [convert_statementI, convert_exprsI, convert_exprI, h0]

theorem var_dec_values_before_names_witness :
    ScopeMap.get "x" initState.vars = none ∧
    isErr (convert_statementI
      ⟨sp0, PStatement.VarDec ["x"] [⟨sp0, PExpr.Ident "x"⟩]⟩ initState) = true :=
  ⟨rfl, var_dec_values_before_names.2.1 sp0 "x" initState rfl⟩

/-- A mismatched variable declaration: two names, zero values. -/
def progMismatch : AyNode PStatement := ⟨sp0, PStatement.VarDec ["a", "b"] []⟩

/-- The shared declaration the binder builds for `progMismatch`. -/
def rcAB : Rc VarDec := ⟨0, VarDec.mk ["a", "b"] []⟩

/-- C8 (counterexample): the binder itself performs no arity check — a
`VarDec` whose name count differs from its value count binds
successfully (here with the faithful, panic-modelling conversion: the
empty value list involves no expression), producing a declaration with
two names and zero values instead of failing with an arity-mismatch
error. -/
theorem var_dec_mismatch_binds :
    convert_statement progMismatch initState =
      some (⟨sp0, Statement.VarDec rcAB⟩, ⟨[[("b", rcAB), ("a", rcAB)]], [[]], 1⟩) ∧
    (Rc.val rcAB).names.length = 2 ∧ (Rc.val rcAB).values.length = 0 := by
  refine ⟨?_, rfl, rfl⟩
  simp [progMismatch, convert_statement, convert_exprs, initState, ScopeMap.new,
    ScopeMap.define, rcAB]

/-- A child of a `var_dec` parse node.  The source
(`build_ast_from_statement`, src/parsing.rs lines 127-141) partitions
the node's pest children by rule into identifier pairs and value
pairs; the pest plumbing is abstracted into the identifier text or the
expression a value child builds. -/
inductive VdChild where
  | ident (s : String)
  | value (e : PExpr)

/-- The `Rule::var_dec` branch of `build_ast_from_statement`
(src/parsing.rs, lines 127-166): partition the children, fail at stage
`Parsing` when the identifier and value counts differ, otherwise build
the parse-level `VarDec` (values are located at the declaration's span
to produce the binder-facing node shape). -/
def build_var_dec (sp : Span) (children : List VdChild) : Except Trace PStatement :=
  let idents := children.filterMap
    (fun c => match c with | .ident s => some s | .value _ => none)
  let values := children.filterMap
    (fun c => match c with | .value e => some e | .ident _ => none)
  if idents.length ≠ values.length then
    .error (Trace.new Stage.Parsing ⟨sp, "var_dec arity mismatch"⟩)
  else
    .ok (PStatement.VarDec idents (values.map (fun e => ⟨sp, e⟩)))

theorem convert_exprsI_length :
    ∀ (es : List (AyNode PExpr)) (vars : ScopeMap (Rc VarDec))
      (funs : ScopeMap (Rc FunDec)) (res : List (AyNode Expr)),
      convert_exprsI es vars funs = .ok res → res.length = es.length := by
  intro es
  induction es with
  | nil =>
    intro vars funs res h
    simp only [convert_exprsI, Except.ok.injEq] at h
    rw [← h]
    rfl
  | cons e rest ih =>
    intro vars funs res h
    simp only [convert_exprsI] at h
    cases h1 : convert_exprI e vars funs with
    | error t => rw [h1] at h; simp at h
    | ok e2 =>
      rw [h1] at h
      dsimp only at h
      cases h2 : convert_exprsI rest vars funs with
      | error t => rw [h2] at h; simp at h
      | ok rest2 =>
        rw [h2] at h
        dsimp only at h
        simp only [Except.ok.injEq] at h
        rw [← h]
        simp [ih vars funs rest2 h2]

/-- A well-formed pair declaration followed by uses of both names. -/
def progPair : AyNode PStatement :=
  ⟨sp0, PStatement.VarDec ["a", "b"] [⟨sp0, PExpr.Number 1⟩, ⟨sp0, PExpr.Number 2⟩]⟩

/-- The shared declaration built for `progPair`. -/
def rcP : Rc VarDec :=
  ⟨0, VarDec.mk ["a", "b"] [⟨sp0, Expr.Number 1⟩, ⟨sp0, Expr.Number 2⟩]⟩

/-- C8 (amended): the arity check for variable declarations lives in
the AST-building (parsing) stage, not in the binder: `build_var_dec`
fails at stage `Parsing` exactly when the identifier count and value
count differ, so every parser-produced `VarDec` satisfies
`len(names) = len(values)`; the binder itself performs no check but
preserves both lists, so binding an equal-count declaration (for
example two names and two values) succeeds and the bound declaration
again satisfies `len(names) = len(values)`. -/
theorem var_dec_arity_checked_in_parsing :
    (∀ (sp : Span) (children : List VdChild),
      (children.filterMap
        (fun c => match c with | .ident s => some s | .value _ => none)).length ≠
      (children.filterMap
        (fun c => match c with | .value e => some e | .ident _ => none)).length →
      build_var_dec sp children =
        .error (Trace.new Stage.Parsing ⟨sp, "var_dec arity mismatch"⟩)) ∧
    (∀ (sp : Span) (children : List VdChild) (names : List String)
        (vals : List (AyNode PExpr)),
      build_var_dec sp children = .ok (PStatement.VarDec names vals) →
      names.length = vals.length) ∧
    (∀ (sp : Span) (names : List String) (values : List (AyNode PExpr))
        (s : BindState) (r : AyNode Statement) (s2 : BindState),
      convert_statementI ⟨sp, PStatement.VarDec names values⟩ s = .ok (r, s2) →
      ∃ rc : Rc VarDec, r.inner = Statement.VarDec rc ∧
        (Rc.val rc).names = names ∧
        (Rc.val rc).values.length = values.length ∧
        (names.length = values.length →
          (Rc.val rc).names.length = (Rc.val rc).values.length)) ∧
    convert_statementI progPair initState =
      .ok (⟨sp0, Statement.VarDec rcP⟩, ⟨[[("b", rcP), ("a", rcP)]], [[]], 1⟩) := by
  refine ⟨?_, ?_, ?_, ?_⟩
  · intro sp children hne
    simp [build_var_dec, hne]
  · intro sp children names vals h
    simp only [build_var_dec] at h
    split_ifs at h with hc
    simp only [Except.ok.injEq, PStatement.VarDec.injEq] at h
    obtain ⟨h1, h2⟩ := h
    rw [← h1, ← h2]
    simp only [List.length_map]
    omega
  · intro sp names values s r s2 h
    obtain ⟨values2, hv, hr, hs2⟩ := convert_statementI_VarDec h
    have hlen := convert_exprsI_length values s.vars s.funs values2 hv
    refine ⟨⟨s.nextId, VarDec.mk names values2⟩, by rw [hr], rfl, ?_, ?_⟩
    · simpa [VarDec.values] using hlen
    · intro he
      simp [VarDec.names, VarDec.values, hlen, he]
  · exact convert_statementI_eval 30
      (by simp [progPair, sizeS, sizeE, sizeSs, sizeEs]) rfl

theorem var_dec_arity_checked_in_parsing_witness :
    build_var_dec sp0 [VdChild.ident "a", VdChild.value (PExpr.Number 1)] =
      .ok (PStatement.VarDec ["a"] [⟨sp0, PExpr.Number 1⟩]) ∧
    (["a"] : List String).length = ([⟨sp0, PExpr.Number 1⟩] : List (AyNode PExpr)).length := by
  refine ⟨rfl, ?_⟩
  exact var_dec_arity_checked_in_parsing.2.1 sp0
    [VdChild.ident "a", VdChild.value (PExpr.Number 1)] ["a"] [⟨sp0, PExpr.Number 1⟩] rfl

theorem exists_of_findSome? {α β : Type} {f : α → Option β} :
    ∀ {l : List α} {b : β}, l.findSome? f = some b → ∃ a, a ∈ l ∧ f a = some b := by
  intro l
  induction l with
  | nil => intro b h; simp at h
  | cons x xs ih =>
    intro b h
    rw [List.findSome?_cons] at h
    cases hx : f x with
    | some y =>
      rw [hx] at h
      dsimp only at h
      exact ⟨x, List.mem_cons_self x xs, hx.trans h⟩
    | none =>
      rw [hx] at h
      dsimp only at h
      obtain ⟨a, ha, hfa⟩ := ih h
      exact ⟨a, List.mem_cons_of_mem x ha, hfa⟩

theorem match_key_val {name key : String} {fn : Rc FunDec} {t : Tense}
    {f : Rc FunDec} (h : match_key name key fn = some (t, f)) : f = fn := by
  simp only [match_key] at h
  by_cases hc : containsChar key '.' = true
  · rw [if_pos hc] at h
    cases hsp : splitOnce key '.' with
    | none => rw [hsp] at h; simp at h
    | some p =>
      obtain ⟨l, r⟩ := p
      rw [hsp] at h
      dsimp only at h
      by_cases e1 : l ++ r = name
      · rw [if_pos e1] at h
        exact ((Prod.mk.injEq .. ▸ Option.some.inj h).2).symm
      · rw [if_neg e1] at h
        by_cases e2 : l ++ "ìy" ++ r = name
        · rw [if_pos e2] at h
          exact ((Prod.mk.injEq .. ▸ Option.some.inj h).2).symm
        · rw [if_neg e2] at h
          by_cases e3 : l ++ "ay" ++ r = name
          · rw [if_pos e3] at h
            exact ((Prod.mk.injEq .. ▸ Option.some.inj h).2).symm
          · rw [if_neg e3] at h
            simp at h
  · rw [if_neg hc] at h
    by_cases h2 : key = name
    · rw [if_pos h2] at h
      exact ((Prod.mk.injEq .. ▸ Option.some.inj h).2).symm
    · rw [if_neg h2] at h
      simp at h

/-- Two separate call sites of the same declared function. -/
def progTwoCalls : List (AyNode PStatement) :=
  [⟨sp0, PStatement.FunDec "f" [] []⟩,
   ⟨sp0, PStatement.Expr ⟨sp0, PExpr.FunCall "f" []⟩⟩,
   ⟨sp0, PStatement.Expr ⟨sp0, PExpr.FunCall "f" []⟩⟩]

/-- A pair declaration followed by `Var` uses of both of its names. -/
def progPairUse : List (AyNode PStatement) :=
  [⟨sp0, PStatement.VarDec ["a", "b"] [⟨sp0, PExpr.Number 1⟩, ⟨sp0, PExpr.Number 2⟩]⟩,
   ⟨sp0, PStatement.Expr ⟨sp0, PExpr.Ident "a"⟩⟩,
   ⟨sp0, PStatement.Expr ⟨sp0, PExpr.Ident "b"⟩⟩]

/-- C6: declarations are created once and shared by reference, never
copied: a bound call's declaration field is exactly the value stored in
the function scope map (which `match_function` returns unchanged, and
which is itself the declaration registered at the `FunDec`), and a
bound `Var`'s declaration field is exactly the value stored in the
variable scope map.  In the `Rc` identity model (allocation id), the
concrete two-call program yields two bound `FunCall` nodes whose
declaration is the identical shared object `rcF` (same id 0), and the
pair program yields one `VarDec` object `rcP` referenced identically
by the declaration node and by both `Var` uses. -/
theorem declaration_sharing :
    (∀ (sp : Span) (name : String) (args : List (AyNode PExpr))
        (vars : ScopeMap (Rc VarDec)) (funs : ScopeMap (Rc FunDec))
        (node : AyNode Expr),
      convert_exprI ⟨sp, PExpr.FunCall name args⟩ vars funs = .ok node →
      ∃ t dec args2, match_function name funs = some (t, dec) ∧
        node = ⟨sp, Expr.FunCall t dec name args2⟩) ∧
    (∀ (name : String) (funs : ScopeMap (Rc FunDec)) (t : Tense) (dec : Rc FunDec),
      match_function name funs = some (t, dec) →
      ∃ key, (key, dec) ∈ ScopeMap.entries funs) ∧
    (∀ (sp : Span) (name : String) (vars : ScopeMap (Rc VarDec))
        (funs : ScopeMap (Rc FunDec)) (node : AyNode Expr),
      convert_exprI ⟨sp, PExpr.Ident name⟩ vars funs = .ok node →
      ∃ dec, ScopeMap.get name vars = some dec ∧ node = ⟨sp, Expr.Var dec⟩) ∧
    convert_statementsI progTwoCalls initState =
      .ok ([⟨sp0, Statement.FunDec rcF⟩,
            ⟨sp0, Statement.Expr ⟨sp0, Expr.FunCall Tense.Present rcF "f" []⟩⟩,
            ⟨sp0, Statement.Expr ⟨sp0, Expr.FunCall Tense.Present rcF "f" []⟩⟩],
           ⟨[[]], [[("f", rcF)]], 1⟩) ∧
    convert_statementsI progPairUse initState =
      .ok ([⟨sp0, Statement.VarDec rcP⟩,
            ⟨sp0, Statement.Expr ⟨sp0, Expr.Var rcP⟩⟩,
            ⟨sp0, Statement.Expr ⟨sp0, Expr.Var rcP⟩⟩],
           ⟨[[("b", rcP), ("a", rcP)]], [[]], 1⟩) := by
  refine ⟨?_, ?_, ?_, ?_, ?_⟩
  · intro sp name args vars funs node h
    simp only [convert_exprI] at h
    cases hm : match_function name funs with
    | none => rw [hm] at h; simp at h
    | some p =>
      obtain ⟨t, dec⟩ := p
      rw [hm] at h
      dsimp only at h
      cases ha : convert_exprsI args vars funs with
      | error tr => rw [ha] at h; simp at h
      | ok args2 =>
        rw [ha] at h
        dsimp only at h
        simp only [Except.ok.injEq] at h
        exact ⟨t, dec, args2, rfl, h.symm⟩
  · intro name funs t dec h
    obtain ⟨p, hp, hkey⟩ := exists_of_findSome? h
    obtain ⟨key, fn⟩ := p
    have hval := match_key_val hkey
    exact ⟨key, by rw [hval]; exact hp⟩
  · intro sp name vars funs node h
    simp only [convert_exprI] at h
    cases hg : ScopeMap.get name vars with
    | none => rw [hg] at h; simp at h
    | some dec =>
      rw [hg] at h
      dsimp only at h
      simp only [Except.ok.injEq] at h
      exact ⟨dec, rfl, h.symm⟩
  · exact convert_statementsI_eval 30
      (by simp [progTwoCalls, sizeS, sizeE, sizeSs, sizeEs]) rfl
  · exact convert_statementsI_eval 30
      (by simp [progPairUse, sizeS, sizeE, sizeSs, sizeEs]) rfl

theorem declaration_sharing_witness :
    convert_exprI ⟨sp0, PExpr.Ident "a"⟩ [[("a", rcP)]] [[]] =
      .ok ⟨sp0, Expr.Var rcP⟩ ∧
    (∃ dec, ScopeMap.get "a" ([[("a", rcP)]] : ScopeMap (Rc VarDec)) = some dec ∧
      (⟨sp0, Expr.Var rcP⟩ : AyNode Expr) = ⟨sp0, Expr.Var dec⟩) := by
  have h : convert_exprI ⟨sp0, PExpr.Ident "a"⟩ [[("a", rcP)]] [[]] =
      .ok ⟨sp0, Expr.Var rcP⟩ := by
    simp [convert_exprI, ScopeMap.get, ScopeMap.entries]
  exact ⟨h, declaration_sharing.2.2.1 sp0 "a" [[("a", rcP)]] [[]]
    ⟨sp0, Expr.Var rcP⟩ h⟩
